import Mathlib

/-!
# Verification of the bitcoin_datapipeline core against its specification

Shallow embedding of the pipeline's core components (circuit breaker,
Kinesis batching producer, REST backfiller, rate limiter, deduplicator,
partition writer, ETL transformer and reader, feature builder), with
theorems settling the specification claims C1..C10.

Python wall-clock times are embedded as rationals (seconds) or naturals
(unix milliseconds); machine floats appearing in the source are discussed
at each definition site.
-/

namespace BitcoinPipeline

/-! ## Circuit breaker (rest_ingestor/src/utils/retry.py, class CircuitBreaker)

The Python object keeps `state ∈ {'CLOSED','OPEN','HALF_OPEN'}`,
`failure_count`, `last_failure_time`, and the constructor parameters
`failure_threshold`, `recovery_timeout`.  `call` is embedded as a pure
step function taking the current wall-clock time and the outcome the
wrapped function would have (`success = true` iff it would return
without raising the expected exception). -/

/-- The three breaker states `'CLOSED'`, `'OPEN'`, `'HALF_OPEN'`. -/
inductive BreakerTag
  | closed
  | opened
  | halfOpen
deriving DecidableEq, Repr

/-- State of `retry.CircuitBreaker`. -/
structure CircuitBreaker where
  failureThreshold : Nat
  recoveryTimeout : ℚ
  failureCount : Nat
  lastFailureTime : Option ℚ
  tag : BreakerTag
deriving DecidableEq, Repr

/-- `CircuitBreaker.__init__`: `failure_count = 0`, `last_failure_time = None`,
`state = 'CLOSED'`. -/
def CircuitBreaker.init (threshold : Nat) (timeout : ℚ) : CircuitBreaker :=
  { failureThreshold := threshold
    recoveryTimeout := timeout
    failureCount := 0
    lastFailureTime := none
    tag := .closed }

/-- `CircuitBreaker._should_attempt_reset`: false when no failure recorded,
else `current_time - last_failure_time >= recovery_timeout`. -/
def CircuitBreaker.shouldAttemptReset (cb : CircuitBreaker) (now : ℚ) : Bool :=
  match cb.lastFailureTime with
  | none => false
  | some t => decide (cb.recoveryTimeout ≤ now - t)

/-- `CircuitBreaker._record_failure`: increment `failure_count`, stamp
`last_failure_time`, and go `'OPEN'` once `failure_count >= failure_threshold`. -/
def CircuitBreaker.recordFailure (cb : CircuitBreaker) (now : ℚ) : CircuitBreaker :=
  let c := cb.failureCount + 1
  { cb with
    failureCount := c
    lastFailureTime := some now
    tag := if cb.failureThreshold ≤ c then .opened else cb.tag }

/-- Result of one `CircuitBreaker.call`: either the breaker failed fast
(raised `"Circuit breaker is OPEN"` without invoking the wrapped function),
or the wrapped function ran with the given outcome (a `false` outcome
re-raises the expected exception to the caller). -/
inductive CallOutcome
  | failFast
  | ran (success : Bool)
deriving DecidableEq, Repr

/-- Body of `CircuitBreaker.call` after the OPEN gate: run the wrapped
function; on success `HALF_OPEN → CLOSED` and `failure_count = 0`; on the
expected exception `_record_failure` and re-raise. -/
def CircuitBreaker.runWrapped (cb : CircuitBreaker) (now : ℚ) (success : Bool) :
    CircuitBreaker × CallOutcome :=
  if success then
    ({ cb with
        tag := if cb.tag = .halfOpen then .closed else cb.tag
        failureCount := 0 },
      .ran true)
  else
    (cb.recordFailure now, .ran false)

/-- `CircuitBreaker.call`: while `'OPEN'`, either move to `'HALF_OPEN'` and
attempt the call when `_should_attempt_reset`, or raise without invoking the
wrapped function; otherwise pass through to the wrapped call. -/
def CircuitBreaker.call (cb : CircuitBreaker) (now : ℚ) (success : Bool) :
    CircuitBreaker × CallOutcome :=
  if cb.tag = .opened then
    if cb.shouldAttemptReset now then
      CircuitBreaker.runWrapped { cb with tag := .halfOpen } now success
    else
      (cb, .failFast)
  else
    CircuitBreaker.runWrapped cb now success

/-- Reachability invariant of the breaker: away from `'CLOSED'` the failure
count has already reached the threshold (the only transition into `'OPEN'`
is `_record_failure` at the threshold, and `'HALF_OPEN'` is entered from
`'OPEN'` without touching the count). -/
def CircuitBreaker.Inv (cb : CircuitBreaker) : Prop :=
  1 ≤ cb.failureThreshold ∧ (cb.tag ≠ .closed → cb.failureThreshold ≤ cb.failureCount)

/-! ## Kinesis batching producer
(sbe_ingestor/src/clients/kinesis_client.py, class KinesisProducer)

Embedding of `_flush_stream` / `_send_batch` for a single stream.
Records are identified by natural numbers.  The bus's per-attempt
behaviour is a parameter `failsAt : attempt index → batch → failed
sublist` (the records of the `put_records` response carrying an
`ErrorCode`, in batch order).  The byte counters (`total_bytes`,
`bytes_sent`) and per-stream latency stats are not involved in any claim
and are omitted. -/

/-- The `self.stats` counters of `KinesisProducer` that the flush path
touches. -/
structure ProducerStats where
  total_records : Nat
  failed_records : Nat
  batches_sent : Nat
  errors : Nat
  circuit_breaker_opens : Nat
deriving DecidableEq, Repr

/-- Producer state projected onto one stream: the stream's queue
`self._batches[stream]`, the global counters, and the stream's circuit
breaker (created in `_flush_stream` with threshold 5, timeout 30 s). -/
structure FlushState where
  queue : List Nat
  stats : ProducerStats
  breaker : CircuitBreaker
deriving DecidableEq, Repr

/-- One `put_records` attempt inside `_send_batch`: when the response
reports failed records, the failed sublist is appended to
`self._batches[stream_name]` (`extend`, i.e. the tail of the queue) and a
`ClientError('PartialFailure')` is raised; otherwise the attempt returns
normally.  Returns the new queue and whether the attempt succeeded. -/
def sendAttempt (failsAt : Nat → List Nat → List Nat) (k : Nat)
    (queue records : List Nat) : List Nat × Bool :=
  let failed := failsAt k records
  if failed.isEmpty then (queue, true) else (queue ++ failed, false)

/-- The `retry_with_backoff(max_attempts=3, ...)` decorator around
`_send_batch`: on `ClientError` the whole `_send_batch(stream, records)`
call is repeated with the same `records` list, up to `fuel` attempts in
total; the last failure propagates. -/
def sendWithRetry (failsAt : Nat → List Nat → List Nat) :
    Nat → Nat → List Nat → List Nat → List Nat × Bool
  | _, 0, queue, _ => (queue, false)
  | k, fuel + 1, queue, records =>
    let (queue', ok) := sendAttempt failsAt k queue records
    if ok then (queue', true)
    else match fuel with
      | 0 => (queue', false)
      | _ + 1 => sendWithRetry failsAt (k + 1) fuel queue' records

/-- `KinesisProducer._flush_stream` for one stream: copy-and-clear the
queue, run `_send_batch` through the breaker; on success add the batch
size to `total_records` and bump `batches_sent`; on any exception append
the whole original batch back to the queue when its length is below the
1000 high-water mark, add the batch size to `failed_records`, bump
`errors`, and bump `circuit_breaker_opens` when the breaker is left
`'OPEN'`.  A fail-fast from an OPEN breaker raises a plain `Exception`
before `_send_batch` runs, so the queue is still empty at the re-queue
check and the breaker records no new failure. -/
def flushStream (failsAt : Nat → List Nat → List Nat) (now : ℚ)
    (st : FlushState) : FlushState :=
  if st.queue.isEmpty then st
  else
    let records := st.queue
    let s := st.stats
    if st.breaker.tag = .opened ∧ st.breaker.shouldAttemptReset now = false then
      -- breaker.call raises "Circuit breaker is OPEN" without running _send_batch
      { queue := if 0 < 1000 then [] ++ records else []
        stats := { s with
          failed_records := s.failed_records + records.length
          errors := s.errors + 1
          circuit_breaker_opens := s.circuit_breaker_opens + 1 }
        breaker := st.breaker }
    else
      let cb := if st.breaker.tag = .opened
        then { st.breaker with tag := .halfOpen } else st.breaker
      let (queue', ok) := sendWithRetry failsAt 0 3 [] records
      if ok then
        let (cb', _) := cb.runWrapped now true
        { queue := queue'
          stats := { s with
            total_records := s.total_records + records.length
            batches_sent := s.batches_sent + 1 }
          breaker := cb' }
      else
        let (cb', _) := cb.runWrapped now false
        { queue := if queue'.length < 1000 then queue' ++ records else queue'
          stats := { s with
            failed_records := s.failed_records + records.length
            errors := s.errors + 1
            circuit_breaker_opens :=
              if cb'.tag = .opened then s.circuit_breaker_opens + 1
              else s.circuit_breaker_opens }
          breaker := cb' }

/-- The C6-partial-failure scenario of the spec: a batch of three records
`[1, 2, 3]` queued for stream X; every `put_records` attempt reports
`FailedRecordCount = 1` with the second record carrying
`ErrorCode = InternalFailure`. -/
def c1FailsAt : Nat → List Nat → List Nat :=
  fun _ records => (records.drop 1).take 1

/-- Initial producer state for the scenario: queue `[1, 2, 3]`, zeroed
counters, fresh breaker (threshold 5, recovery timeout 30 s). -/
def c1Start : FlushState :=
  { queue := [1, 2, 3]
    stats := ⟨0, 0, 0, 0, 0⟩
    breaker := CircuitBreaker.init 5 30 }

/-- Result of the scenario flush at wall-clock time 0. -/
def c1Result : FlushState := flushStream c1FailsAt 0 c1Start

/-! ## REST backfiller
(rest_ingestor/src/clients/binance_rest.py, `BinanceRESTClient.backfill_agg_trades`)

The exchange is a parameter `fetch cursor batchEnd` giving the page the
`get_agg_trades(symbol, start_time=cursor, end_time=batchEnd, limit=1000)`
call returns.  Times are unix milliseconds.  The `async` generator is
embedded as a fuel-indexed recursion returning the yielded records, the
final checkpoint, the final cursor, and whether the `while` loop ran to
completion within the fuel. -/

/-- An exchange aggTrade as returned by `/api/v3/aggTrades`:
fields `s, T, a, p, q, m`.  `p`/`q` are the exchange's decimal strings. -/
structure ExTrade where
  s : String
  T : Nat
  a : Nat
  p : String
  q : String
  m : Bool
deriving DecidableEq, Repr

/-- `BackfillCheckpoint` (symbol, last_timestamp, last_agg_trade_id,
total_records).  `last_trade_id` is untouched by the aggTrades path and
omitted. -/
structure BackfillCheckpoint where
  symbol : String
  last_timestamp : Nat
  last_agg_trade_id : Option Nat
  total_records : Nat
deriving DecidableEq, Repr

/-- A normalized trade as yielded by the backfiller.  The code stores
`price = float(trade['p'])` and `qty = float(trade['q'])` — a conversion
through a binary IEEE-754 double; the embedding carries the exchange
strings these conversions are applied to, and the conversion itself is
analysed by `IsDouble` below (claim C2). -/
structure NormTrade where
  symbol : String
  event_ts : Nat
  ingest_ts : Nat
  trade_id : Nat
  priceStr : String
  qtyStr : String
  is_buyer_maker : Bool
  source : String
deriving DecidableEq, Repr

/-- Normalization of one exchange trade (`source = "rest"`,
`ingest_ts = now_ms`). -/
def normalizeTrade (nowMs : Nat) (t : ExTrade) : NormTrade :=
  { symbol := t.s
    event_ts := t.T
    ingest_ts := nowMs
    trade_id := t.a
    priceStr := t.p
    qtyStr := t.q
    is_buyer_maker := t.m
    source := "rest" }

/-- The per-trade loop body: yield the normalized trade and advance
`current_start ← max(current_start, trade['T'] + 1)`. -/
def processPage (nowMs : Nat) (cursor : Nat) (trades : List ExTrade) :
    List NormTrade × Nat :=
  trades.foldl
    (fun acc t => (acc.1 ++ [normalizeTrade nowMs t], max acc.2 (t.T + 1)))
    ([], cursor)

/-- `backfill_agg_trades`: while `current_start < end_ts`, fetch
`(cursor, batch_end)` with `batch_end = min(cursor + 24h, end_ts)`; an
empty page advances the cursor to `batch_end + 1`; a non-empty page is
normalized and yielded, the cursor advances past the last event, and the
checkpoint (when one was passed) is updated with the new cursor, the last
aggTrade id, and the batch size. -/
def backfillAggTrades (fetch : Nat → Nat → List ExTrade) (nowMs : Nat) :
    Nat → Nat → Nat → Option BackfillCheckpoint →
    List NormTrade × Option BackfillCheckpoint × Nat × Bool
  | 0, cursor, _, cp => ([], cp, cursor, false)
  | fuel + 1, cursor, endTs, cp =>
    if cursor < endTs then
      let batchEnd := min (cursor + 24 * 60 * 60 * 1000) endTs
      let trades := fetch cursor batchEnd
      if trades.isEmpty then
        backfillAggTrades fetch nowMs fuel (batchEnd + 1) endTs cp
      else
        let (recs, cursor') := processPage nowMs cursor trades
        let cp' := cp.map fun c =>
          { c with
            last_timestamp := cursor'
            last_agg_trade_id :=
              match trades.getLast? with
              | some t => some t.a
              | none => c.last_agg_trade_id
            total_records := c.total_records + trades.length }
        let (recs', cpf, curf, fin) :=
          backfillAggTrades fetch nowMs fuel cursor' endTs cp'
        (recs ++ recs', cpf, curf, fin)
    else ([], cp, cursor, true)

/-- The C4-resumable-backfill scenario's exchange mock: three pages of one
trade each at `T = 1_700_000_010_000, 1_700_000_030_000, 1_700_000_050_000`
(served at the cursors the algorithm reaches), and the empty page
everywhere else. -/
def c3Fetch : Nat → Nat → List ExTrade :=
  fun cursor _ =>
    if cursor ≤ 1700000010000 ∧ 1700000010000 < cursor + 24 * 60 * 60 * 1000 then
      [⟨"BTCUSDT", 1700000010000, 1, "37000.10", "0.5", false⟩]
    else if cursor ≤ 1700000030000 ∧ 1700000030000 < cursor + 24 * 60 * 60 * 1000 then
      [⟨"BTCUSDT", 1700000030000, 2, "37001.00", "1.0", true⟩]
    else if cursor ≤ 1700000050000 ∧ 1700000050000 < cursor + 24 * 60 * 60 * 1000 then
      [⟨"BTCUSDT", 1700000050000, 3, "37002.50", "0.25", false⟩]
    else []

/-- The scenario run: `start = 1_700_000_000_000`, `end = 1_700_000_060_000`,
an empty checkpoint (fresh `BackfillCheckpoint` whose `last_timestamp` is
the start and whose `total_records` is 0 — `current_start` resumes from
`checkpoint.last_timestamp` whenever a checkpoint object is passed). -/
def c3Run : List NormTrade × Option BackfillCheckpoint × Nat × Bool :=
  backfillAggTrades c3Fetch 1700000100000 10 1700000000000 1700000060000
    (some ⟨"BTCUSDT", 1700000000000, none, 0⟩)

/-! ## Decimal discipline of the backfiller (claim C2)

`backfill_agg_trades` stores `price = float(trade['p'])` and
`qty = float(trade['q'])`.  Python's `float` is an IEEE-754 binary64
value: every finite double is `m · 2^E` with `|m| < 2^53` and an integer
exponent `E`.  `IsDouble` below is a superset of the finite doubles (the
exponent is unbounded), so proving that NO `IsDouble` value equals an
exact decimal shows that no possible result of `float()` preserves that
decimal. -/

/-- Value of a non-empty all-digit character list. -/
def digitsToNat (cs : List Char) : Option Nat :=
  if cs.isEmpty ∨ cs.any (fun c => ¬ c.isDigit) then none
  else some (cs.foldl (fun acc c => 10 * acc + (c.toNat - 48)) 0)

/-- Exact rational value of a plain decimal string such as the exchange's
`"37000.10"` (an integer part, optionally a `'.'` and a fractional part). -/
def decimalToRat (s : String) : Option ℚ :=
  match (s.toList).span (fun c => c ≠ '.') with
  | (w, []) => (digitsToNat w).map (fun n => mkRat (Int.ofNat n) 1)
  | (w, _ :: f) =>
    if f.contains '.' then none
    else
      match digitsToNat w, digitsToNat f with
      | some n, some m =>
        some (mkRat (Int.ofNat (n * 10 ^ f.length + m)) (10 ^ f.length))
      | _, _ => none

/-- `q` is representable as a binary floating-point value: an integer
significand of magnitude below `2^53` scaled by a power of two.  Every
finite IEEE-754 binary64 value (every possible result of Python's
`float()`) satisfies this. -/
def IsDouble (q : ℚ) : Prop :=
  ∃ (m : ℤ) (k : ℕ), m.natAbs < 2 ^ 53 ∧ (q = m * 2 ^ k ∨ q = m / 2 ^ k)

/-! ## Partition writer key generation
(services/rest-ingestor/src/writers/s3_writer.py, `S3BronzeWriter._build_s3_key`)

`_build_s3_key` formats the UTC datetime handed to the write call
(`write_agg_trades(..., timestamp)`, the record's event instant in the
spec's C7 scenario) with `strftime`.  The embedding converts unix
milliseconds to a UTC civil date-time with the standard
days-from-civil/civil-from-days construction and zero-padded decimal
formatting, and builds the key string exactly as the f-string does.
`self.config.s3_bronze_prefix` is the deployment's `"bronze"`;
`self.compression_enabled` defaults to `True`. -/

/-- Civil date from days since the unix epoch (proleptic Gregorian). -/
def civilFromDays (z0 : Int) : Int × Int × Int :=
  let z := z0 + 719468
  let era := (if 0 ≤ z then z else z - 146096) / 146097
  let doe := z - era * 146097
  let yoe := (doe - doe / 1460 + doe / 36524 - doe / 146096) / 365
  let y := yoe + era * 400
  let doy := doe - (365 * yoe + yoe / 4 - yoe / 100)
  let mp := (5 * doy + 2) / 153
  let d := doy - (153 * mp + 2) / 5 + 1
  let m := mp + (if mp < 10 then 3 else -9)
  (y + (if m ≤ 2 then 1 else 0), m, d)

/-- UTC broken-down time (year, month, day, hour, minute, second) of a
unix-milliseconds instant. -/
def utcOfMillis (ms : Nat) : Nat × Nat × Nat × Nat × Nat × Nat :=
  let secs := ms / 1000
  let days := secs / 86400
  let rem := secs % 86400
  let (y, m, d) := civilFromDays (Int.ofNat days)
  (y.toNat, m.toNat, d.toNat, rem / 3600, rem % 3600 / 60, rem % 60)

/-- Zero-padded two-digit decimal rendering (`strftime` `%m/%d/%H/%M/%S`). -/
def pad2 (n : Nat) : String :=
  if n < 10 then "0" ++ toString n else toString n

/-- Four-digit year rendering (`strftime` `%Y` for the years at hand). -/
def pad4 (n : Nat) : String :=
  if n < 10 then "000" ++ toString n
  else if n < 100 then "00" ++ toString n
  else if n < 1000 then "0" ++ toString n
  else toString n

/-- `S3BronzeWriter._build_s3_key`: the key
`<prefix>/<symbol>/<data_type>/yyyy=YYYY/mm=MM/dd=DD/hh=HH/
<data_type>_YYYYMMDD_HHMMSS.jsonl[.gz]` for the write timestamp given in
unix milliseconds. -/
def buildS3Key (bronzePfx dataType symbol : String)
    (compressionEnabled : Bool) (tsMillis : Nat) : String :=
  let (y, m, d, hh, mi, ss) := utcOfMillis tsMillis
  let filename :=
    dataType ++ "_" ++ pad4 y ++ pad2 m ++ pad2 d ++ "_" ++
      pad2 hh ++ pad2 mi ++ pad2 ss ++ ".jsonl" ++
      (if compressionEnabled then ".gz" else "")
  bronzePfx ++ "/" ++ symbol ++ "/" ++ dataType ++
    "/yyyy=" ++ pad4 y ++ "/mm=" ++ pad2 m ++ "/dd=" ++ pad2 d ++
    "/hh=" ++ pad2 hh ++ "/" ++ filename

/-! ## ETL transformer
(data_connector/src/transformer.py, `DataTransformer`)

Raw JSONL records are embedded as structures of optional fields
(`none` = the key is absent).  Decimal-bearing JSON values are carried as
their decimal text, and `_safe_decimal_convert` is embedded with
`decimalToRat` (exact `Decimal` semantics on the plain-decimal strings
the bronze layer contains).  `transform` increments `validation_errors`
only when a transform raises; `_transform_agg_trade` returning `None`
counts as `records_skipped`. -/

/-- A raw aggTrade JSON object from a bronze file. -/
structure RawAggTrade where
  symbol : Option String
  event_ts : Option Int
  trade_id : Option Int
  price : Option String
  qty : Option String
  is_buyer_maker : Option Bool
  ingest_ts : Option Int
  source : Option String
deriving DecidableEq, Repr

/-- A transformed row as handed to the relational writer. -/
structure TransformedRow where
  symbol : String
  timestamp : Int
  price : ℚ
  volume : ℚ
  trade_id : Int
  is_buyer_maker : Bool
  source : String
  data_type : String
  ingest_timestamp : Option Int
deriving DecidableEq, Repr

/-- `DataTransformer.stats` (the three counters `transform` maintains). -/
structure TransformStats where
  records_transformed : Nat
  records_skipped : Nat
  validation_errors : Nat
deriving DecidableEq, Repr

/-- `DataTransformer._safe_decimal_convert` on a (possibly absent)
decimal-bearing value: `None` stays `None`, an all-whitespace string is
`None`, otherwise an exact `Decimal` parse with `None` on failure. -/
def safeDecimalConvert (v : Option String) : Option ℚ :=
  match v with
  | none => none
  | some s =>
    if s.toList.all (fun c => c.isWhitespace) then none else decimalToRat s

/-- `DataTransformer._validate_timestamp`: accept only
`2020-01-01 ≤ ts ≤ 2030-01-01` (unix milliseconds).  This method exists
in the source but is never invoked by any transform path. -/
def validateTimestamp (ts : Int) : Option Int :=
  if 1577836800000 ≤ ts ∧ ts ≤ 1893456000000 then some ts else none

/-- `DataTransformer._transform_agg_trade`: require the six fields
`symbol, event_ts, trade_id, price, qty, is_buyer_maker`; convert
price/qty to decimals; build the row with `timestamp = int(event_ts)` —
with NO range check on the timestamp. -/
def transformAggTrade (r : RawAggTrade) : Option TransformedRow :=
  match r.symbol, r.event_ts, r.trade_id, r.price, r.qty, r.is_buyer_maker with
  | some sym, some ts, some tid, some p, some q, some bm =>
    match safeDecimalConvert (some p), safeDecimalConvert (some q) with
    | some pv, some qv =>
      some
        { symbol := sym
          timestamp := ts
          price := pv
          volume := qv
          trade_id := tid
          is_buyer_maker := bm
          source := r.source.getD "rest"
          data_type := "aggTrade"
          ingest_timestamp := r.ingest_ts }
    | _, _ => none
  | _, _, _, _, _, _ => none

/-- The `transform` loop for an `aggTrades` file: successful transforms are
appended and counted in `records_transformed`; `None` results count in
`records_skipped`; `validation_errors` counts raised exceptions, of which
the embedded total-function path has none. -/
def transformBatchAggTrades (rs : List RawAggTrade) :
    List TransformedRow × TransformStats :=
  rs.foldl
    (fun acc r =>
      match transformAggTrade r with
      | some row => (acc.1 ++ [row],
          { acc.2 with records_transformed := acc.2.records_transformed + 1 })
      | none => (acc.1,
          { acc.2 with records_skipped := acc.2.records_skipped + 1 }))
    ([], ⟨0, 0, 0⟩)

/-- A raw aggTrade whose `event_ts = 0` (1970, far outside
`[2020-01-01, 2030-01-01]`), otherwise fully well-formed. -/
def epochRawTrade : RawAggTrade :=
  { symbol := some "BTCUSDT"
    event_ts := some 0
    trade_id := some 42
    price := some "37000.1"
    qty := some "0.5"
    is_buyer_maker := some false
    ingest_ts := some 1700000000500
    source := some "rest" }

/-! ## ETL reader
(services/data-connector/src/s3_reader.py, `S3Reader`)

`read_file` is embedded with its effectful collaborators as parameters:
`fetch` is the outcome of `get_object` + `Body.read()`, `gunzip` the
outcome of `gzip.decompress`, `decodeUtf8` the outcome of
`content.decode('utf-8')`, and `parseJson` the per-line outcome of
`json.loads`.  `Raw` bytes and parsed records are opaque type
parameters.  The consumed-set `self._processed_files` is a list of
keys. -/

/-- A failure raised by one of the reader's steps. -/
inductive ReadErr
  | fetchFailed
  | gunzipFailed
  | decodeFailed
deriving DecidableEq, Repr

/-- Python `str.endswith`. -/
def pyEndsWith (s suffixStr : String) : Bool :=
  suffixStr.toList.isSuffixOf s.toList

/-- Python `str.strip` (leading and trailing whitespace removed). -/
def stripStr (s : String) : String :=
  String.mk
    (((s.toList.dropWhile Char.isWhitespace).reverse.dropWhile
        Char.isWhitespace).reverse)

/-- Split a character list on a separator (Python `str.split(sep)`
semantics: `n` separators produce `n+1` pieces, empty pieces included). -/
def splitCharList (sep : Char) : List Char → List (List Char)
  | [] => [[]]
  | c :: cs =>
    let r := splitCharList sep cs
    if c = sep then [] :: r
    else
      match r with
      | h :: t => (c :: h) :: t
      | [] => [[c]]

/-- Python `content_str.split('\n')`. -/
def splitLines (s : String) : List String :=
  (splitCharList (Char.ofNat 10) s.toList).map String.mk

/-- `S3Reader.read_file`: fetch; gzip-decompress iff the key ends in
`.gz`; UTF-8 decode; strip, split on newlines, parse each non-blank line
skipping malformed ones; only after all of that add the key to the
consumed-set.  Any raised step leaves the consumed-set untouched and
propagates the failure. -/
def readFile {Raw Rec : Type}
    (fetch : Except ReadErr Raw) (gunzip : Raw → Except ReadErr Raw)
    (decodeUtf8 : Raw → Except ReadErr String)
    (parseJson : String → Option Rec)
    (processedFiles : List String) (key : String) :
    Except ReadErr (List Rec) × List String :=
  match fetch with
  | .error e => (.error e, processedFiles)
  | .ok raw =>
    match if pyEndsWith key ".gz" then gunzip raw else .ok raw with
    | .error e => (.error e, processedFiles)
    | .ok raw2 =>
      match decodeUtf8 raw2 with
      | .error e => (.error e, processedFiles)
      | .ok contentStr =>
        let lines := splitLines (stripStr contentStr)
        let records := lines.filterMap fun line =>
          if line.toList.all Char.isWhitespace then none else parseJson line
        (.ok records, key :: processedFiles)

/-- `S3Reader._is_data_file`. -/
def isDataFile (key : String) : Bool :=
  pyEndsWith key ".jsonl" ∨ pyEndsWith key ".jsonl.gz" ∨
    pyEndsWith key ".json" ∨ pyEndsWith key ".json.gz"

/-- `S3Reader._process_s3_object`: skip keys already consumed, keys not
modified after the cutoff, and non-data keys; otherwise return the file
descriptor (embedded as the key).  `lastModified`/cutoff are unix
milliseconds. -/
def processS3Object (processedFiles : List String) (key : String)
    (lastModified lastProcessedTime : Nat) : Option String :=
  if key ∈ processedFiles then none
  else if lastModified ≤ lastProcessedTime then none
  else if ¬ isDataFile key then none
  else some key

/-! ## Aggregator feature builder
(aggregator/src/feature_builder.py, `FeatureBuilder`)

Embedding of `build_features` for `message_type = "bestBidAsk"`.
Numeric message fields are carried as rationals (the float arithmetic of
the feature formulas is never reached, see below).  In
`_build_orderbook_features` the dict literal returned at the end contains
the entries `"bid_size": latest_bid_size if bid_sizes else 0` and
`"ask_size": latest_ask_size if ask_sizes else 0`, but no variables
`latest_bid_size` / `latest_ask_size` are ever assigned in the function:
whenever `bid_sizes` is non-empty (every window with at least one update
with positive bid and ask prices), evaluating the dict raises
`NameError("name 'latest_bid_size' is not defined")`.  `build_features`
catches it, bumps `computation_errors`, and returns `None`. -/

/-- The payload of a consumed bestBidAsk message (`msg['data']`). -/
structure BBAData where
  event_ts : Nat
  bid_px : ℚ
  ask_px : ℚ
  bid_sz : ℚ
  ask_sz : ℚ
deriving DecidableEq, Repr

/-- A consumed message: the `data` key may be absent; `timestamp` is the
sort-key fallback. -/
structure BBAMsg where
  data : Option BBAData
  timestamp : Nat
deriving DecidableEq, Repr

/-- The sort key of `build_features`:
`x.get('data', {}).get('event_ts', x.get('timestamp', 0))`. -/
def bbaSortKey (m : BBAMsg) : Nat :=
  match m.data with
  | some d => d.event_ts
  | none => m.timestamp

/-- Stable insertion into a key-sorted list (used to embed Python's stable
`sorted`). -/
def insertStable (m : BBAMsg) : List BBAMsg → List BBAMsg
  | [] => [m]
  | x :: xs =>
    if bbaSortKey x ≤ bbaSortKey m then x :: insertStable m xs
    else m :: x :: xs

/-- Python's stable `sorted(messages, key=...)`. -/
def sortByEventTs (msgs : List BBAMsg) : List BBAMsg :=
  msgs.foldl (fun acc m => insertStable m acc) []

/-- A Python exception escaping a feature computation. -/
inductive PyErr
  | nameError (v : String)
deriving DecidableEq, Repr

/-- The features dict `_build_orderbook_features` is written to return.
This record is never constructed by the embedded code — its construction
site raises. -/
structure OBFeatures where
  price : ℚ
  bid_price : ℚ
  ask_price : ℚ
  spread : ℚ
  mid_price : ℚ
  bid_size : ℚ
  ask_size : ℚ
  avg_bid_size : ℚ
  avg_ask_size : ℚ
  total_bid_size : ℚ
  total_ask_size : ℚ
  size_imbalance : ℚ
  update_count : Nat
deriving DecidableEq, Repr

/-- An update is collected iff `bid_price > 0 and ask_price > 0`. -/
def validBBA (u : BBAData) : Bool :=
  decide (0 < u.bid_px) && decide (0 < u.ask_px)

/-- `FeatureBuilder._build_orderbook_features`: with no `data`-bearing
message or no valid update it returns the empty dict (`.ok none`); with at
least one valid update, evaluation of the result dict reaches the
`"bid_size"` entry and raises `NameError` on the unbound
`latest_bid_size`. -/
def buildOrderbookFeatures (msgs : List BBAMsg) :
    Except PyErr (Option OBFeatures) :=
  let updates := msgs.filterMap (fun m => m.data)
  if updates.isEmpty then .ok none
  else
    let valid := updates.filter validBBA
    if valid.isEmpty then .ok none
    else .error (.nameError "latest_bid_size")

/-- A feature record as written to the hot store (`features.update` of the
metadata over the feature fields). -/
structure FeatureRecord where
  symbol : String
  timestamp : Nat
  message_count : Nat
  message_type : String
  feature_version : String
  features : OBFeatures
deriving DecidableEq, Repr

/-- `FeatureBuilder.build_features` for `message_type = "bestBidAsk"`:
empty batches and empty dicts give `None`; an exception is caught, bumps
`computation_errors`, gives `None`; a (never-occurring) feature dict is
wrapped with the metadata.  Returns the optional record and the new
`computation_errors` counter. -/
def buildFeatures (symbol : String) (msgs : List BBAMsg) (nowSec : Nat)
    (computationErrors : Nat) : Option FeatureRecord × Nat :=
  if msgs.isEmpty then (none, computationErrors)
  else
    match buildOrderbookFeatures (sortByEventTs msgs) with
    | .error _ => (none, computationErrors + 1)
    | .ok none => (none, computationErrors)
    | .ok (some f) =>
      (some
        { symbol := symbol
          timestamp := nowSec
          message_count := msgs.length
          message_type := "bestBidAsk"
          feature_version := "1.0"
          features := f },
        computationErrors)

/-! ## Deduplicator
(rest_ingestor/src/utils/deduplication.py, `RecordDeduplicator`)

`_seen_records` (per-symbol insertion-ordered dict `record_id → wall
first-seen time`) and `_insertion_order` (per-symbol deque) are embedded
as association lists; Python dicts preserve insertion order, update keys
in place, and delete by key.  Wall-clock times are rationals.  The
`timestamp` argument of `is_unique` is dead in the source (it is scaled
into `record_time`, which is never read) and is carried unused.  Each
call also reports how many entries the per-symbol LRU trim evicted. -/

/-- Per-symbol state: the `record_id → first_seen` dict and the LRU
deque. -/
structure SymbolState where
  seen : List (String × ℚ)
  queue : List (String × ℚ)
deriving DecidableEq, Repr

/-- Whole-deduplicator state. -/
structure DedupState where
  symbols : List (String × SymbolState)
  lastCleanup : ℚ
deriving DecidableEq, Repr

/-- Constructor parameters of `RecordDeduplicator`. -/
structure DedupCfg where
  windowSeconds : ℚ
  maxRecordsPerSymbol : Nat
  cleanupInterval : ℚ
deriving DecidableEq, Repr

/-- Dict lookup. -/
def lookupA (l : List (String × ℚ)) (k : String) : Option ℚ :=
  (l.find? (fun e => e.1 = k)).map (fun e => e.2)

/-- Dict update of an existing key (position preserved, as in Python). -/
def setA (l : List (String × ℚ)) (k : String) (v : ℚ) : List (String × ℚ) :=
  l.map (fun e => if e.1 = k then (k, v) else e)

/-- `self._seen_records[symbol]` / `_insertion_order[symbol]`
(defaultdict read). -/
def getSymbol (syms : List (String × SymbolState)) (s : String) : SymbolState :=
  match syms.find? (fun e => e.1 = s) with
  | some e => e.2
  | none => ⟨[], []⟩

/-- Store a symbol's state back (update in place, or append for a fresh
defaultdict entry). -/
def setSymbol (syms : List (String × SymbolState)) (s : String)
    (v : SymbolState) : List (String × SymbolState) :=
  if syms.any (fun e => e.1 = s) then
    syms.map (fun e => if e.1 = s then (s, v) else e)
  else syms ++ [(s, v)]

/-- `_cleanup_old_records` for one symbol: drop entries strictly older
than `cutoff` from both structures. -/
def cleanSym (cutoff : ℚ) (S : SymbolState) : SymbolState :=
  ⟨S.seen.filter (fun e => cutoff ≤ e.2), S.queue.filter (fun e => cutoff ≤ e.2)⟩

/-- `_cleanup_old_records`: sweep every symbol with
`cutoff = now − window`, delete symbols whose dict became empty, stamp
`_last_cleanup`. -/
def dedupCleanup (cfg : DedupCfg) (st : DedupState) (now : ℚ) : DedupState :=
  { symbols := st.symbols.filterMap fun e =>
      let s' := cleanSym (now - cfg.windowSeconds) e.2
      if s'.seen.isEmpty then none else some (e.1, s')
    lastCleanup := now }

/-- `_trim_symbol_records`' loop: pop the queue front; a popped id still
in the dict is deleted and counted; stop once `toRemove` deletions
happened or the queue is empty.  Returns (queue, dict, deletions). -/
def trimAux : List (String × ℚ) → List (String × ℚ) → Nat →
    List (String × ℚ) × List (String × ℚ) × Nat
  | [], seen, _ => ([], seen, 0)
  | e :: rest, seen, toRemove =>
    if toRemove = 0 then (e :: rest, seen, 0)
    else if seen.any (fun x => x.1 = e.1) then
      let seen' := seen.filter (fun x => ¬ x.1 = e.1)
      let (q', s', c) := trimAux rest seen' (toRemove - 1)
      (q', s', c + 1)
    else
      trimAux rest seen toRemove

/-- The dedup check of `is_unique` after the optional cleanup sweep: a
hit inside the window is a duplicate (`false`); a hit outside the window
is re-stamped and re-queued (`true`); a miss is inserted and, above the
per-symbol cap, the LRU trim runs (`true`).  Returns (state, returned
value, trim evictions). -/
def dedupCheck (cfg : DedupCfg) (st1 : DedupState) (id symbol : String)
    (now : ℚ) : DedupState × Bool × Nat :=
  match lookupA (getSymbol st1.symbols symbol).seen id with
  | some existing =>
    if now - existing < cfg.windowSeconds then
      ({ st1 with
          symbols := setSymbol st1.symbols symbol
            (getSymbol st1.symbols symbol) }, false, 0)
    else
      ({ st1 with
          symbols := setSymbol st1.symbols symbol
            ⟨setA (getSymbol st1.symbols symbol).seen id now,
              (getSymbol st1.symbols symbol).queue.filter
                  (fun e => ¬ e.1 = id) ++ [(id, now)]⟩ }, true, 0)
  | none =>
    if cfg.maxRecordsPerSymbol <
        ((getSymbol st1.symbols symbol).seen ++ [(id, now)]).length then
      ({ st1 with
          symbols := setSymbol st1.symbols symbol
            ⟨(trimAux ((getSymbol st1.symbols symbol).queue ++ [(id, now)])
                ((getSymbol st1.symbols symbol).seen ++ [(id, now)])
                (((getSymbol st1.symbols symbol).seen ++ [(id, now)]).length
                  - cfg.maxRecordsPerSymbol)).2.1,
              (trimAux ((getSymbol st1.symbols symbol).queue ++ [(id, now)])
                ((getSymbol st1.symbols symbol).seen ++ [(id, now)])
                (((getSymbol st1.symbols symbol).seen ++ [(id, now)]).length
                  - cfg.maxRecordsPerSymbol)).1⟩ },
        true,
        (trimAux ((getSymbol st1.symbols symbol).queue ++ [(id, now)])
          ((getSymbol st1.symbols symbol).seen ++ [(id, now)])
          (((getSymbol st1.symbols symbol).seen ++ [(id, now)]).length
            - cfg.maxRecordsPerSymbol)).2.2)
    else
      ({ st1 with
          symbols := setSymbol st1.symbols symbol
            ⟨(getSymbol st1.symbols symbol).seen ++ [(id, now)],
              (getSymbol st1.symbols symbol).queue ++ [(id, now)]⟩ },
        true, 0)

/-- `RecordDeduplicator.is_unique` at wall-clock time `now`: the optional
cleanup sweep, then the dedup check. -/
def isUnique (cfg : DedupCfg) (st : DedupState) (id : String)
    (_tsMs : Int) (symbol : String) (now : ℚ) : DedupState × Bool × Nat :=
  dedupCheck cfg
    (if cfg.cleanupInterval < now - st.lastCleanup
      then dedupCleanup cfg st now else st)
    id symbol now

/-- A sequence of `is_unique` calls `(record_id, ts, symbol, now)`,
returning the final state, the returned values, and the total trim
evictions. -/
def runDedup (cfg : DedupCfg) :
    DedupState → List (String × Int × String × ℚ) →
    DedupState × List Bool × Nat
  | st, [] => (st, [], 0)
  | st, (id, ts, sym, now) :: rest =>
    ((runDedup cfg (isUnique cfg st id ts sym now).1 rest).1,
      (isUnique cfg st id ts sym now).2.1 ::
        (runDedup cfg (isUnique cfg st id ts sym now).1 rest).2.1,
      (isUnique cfg st id ts sym now).2.2 +
        (runDedup cfg (isUnique cfg st id ts sym now).1 rest).2.2)

/-- Fresh deduplicator constructed at wall-clock time 0 with a small
per-symbol cap of 2 (window 100 s, sweep every 1000 s). -/
def c7Cfg : DedupCfg :=
  ⟨mkRat (Int.ofNat 100) 1, 2, mkRat (Int.ofNat 1000) 1⟩

/-- The C7 counterexample trace: `a, b, c, a` for the same symbol, all at
wall-clock 0 (`c` overflows the cap and the LRU trim evicts `a`). -/
def c7Run : DedupState × List Bool × Nat :=
  runDedup c7Cfg ⟨[], mkRat 0 1⟩
    [("a", 1, "S", mkRat 0 1), ("b", 2, "S", mkRat 0 1),
     ("c", 3, "S", mkRat 0 1), ("a", 1, "S", mkRat 0 1)]

/-! ## Token-bucket rate limiter
(rest_ingestor/src/clients/binance_rest.py, class RateLimiter)

State: `tokens` (float, starts at `requests_per_minute`) and
`last_update` (wall clock, starts at construction time).  `acquire()`
holds the lock for its whole body — including the sleep — so calls are
fully serialized: a trace is a list of the wall-clock times at which
successive calls enter the critical section, each at or after the
previous call's return ("proceed") time.  `rate` is carried as a
rational; wall-clock times are rationals. -/

/-- `RateLimiter` state. -/
structure RLState where
  tokens : ℚ
  lastUpdate : ℚ
deriving DecidableEq, Repr

/-- `RateLimiter.__init__`: a full bucket stamped at construction time. -/
def RLState.init (rate t : ℚ) : RLState :=
  { tokens := rate, lastUpdate := t }

/-- The refill computation of `acquire`:
`min(rate, tokens + elapsed * (rate / 60))`. -/
def refillTokens (rate : ℚ) (s : RLState) (now : ℚ) : ℚ :=
  min rate (s.tokens + (now - s.lastUpdate) * (rate / 60))

/-- One `acquire()` entered at wall time `now`: refill and stamp
`last_update = now`; with a token available, consume it and return
immediately; otherwise sleep `(1 - tokens) / (rate / 60)` seconds (the
lock still held) and set `tokens = 0`.  Returns the new state and the
time at which the call proceeds (returns to its caller). -/
def acquireStep (rate : ℚ) (s : RLState) (now : ℚ) : RLState × ℚ :=
  if 1 ≤ refillTokens rate s now then
    ({ tokens := refillTokens rate s now - 1, lastUpdate := now }, now)
  else
    ({ tokens := 0, lastUpdate := now },
      now + (1 - refillTokens rate s now) / (rate / 60))

/-- The proceed times of a serialized sequence of `acquire()` calls
entering at the given wall times. -/
def runAcquires (rate : ℚ) : RLState → List ℚ → List ℚ
  | _, [] => []
  | s, now :: rest =>
    (acquireStep rate s now).2 ::
      runAcquires rate (acquireStep rate s now).1 rest

/-- A trace is valid when each call enters the (serializing) critical
section no earlier than the previous call's proceed time; `q` is the
earliest possible entry time (initially the construction time). -/
def ValidFrom (rate : ℚ) : RLState → ℚ → List ℚ → Prop
  | _, _, [] => True
  | s, q, now :: rest =>
    q ≤ now ∧
      ValidFrom rate (acquireStep rate s now).1 (acquireStep rate s now).2 rest

/-- How many acquire() calls proceed inside the half-open 60-second
wall-clock window `[T, T + 60)`. -/
def countWindow (T : ℚ) (ps : List ℚ) : Nat :=
  (ps.filter (fun p => decide (T ≤ p ∧ p < T + 60))).length

-- ===== THEOREMS =====

/-- Helper: `CircuitBreaker.call` preserves the reachability invariant. -/
theorem CircuitBreaker.call_preserves_inv (cb : CircuitBreaker) (now : ℚ)
    (success : Bool) (h : cb.Inv) : (cb.call now success).1.Inv := by
  obtain ⟨h1, h2⟩ := h
  have hrun : ∀ c : CircuitBreaker, c.failureThreshold = cb.failureThreshold →
      c.tag ≠ .opened →
      (c.tag ≠ .closed → c.failureThreshold ≤ c.failureCount) →
      (c.runWrapped now success).1.Inv := by
    intro c hth hop hc
    cases success with
    | true =>
      refine ⟨by simpa [CircuitBreaker.runWrapped] using hth ▸ h1, ?_⟩
      intro htag
      exfalso
      by_cases hh : c.tag = .halfOpen
      · simp [CircuitBreaker.runWrapped, hh] at htag
      · have hcl : c.tag = .closed := by
          cases hcc : c.tag <;> simp_all
        simp [CircuitBreaker.runWrapped, hh, hcl] at htag
    | false =>
      refine ⟨by simpa [CircuitBreaker.runWrapped, CircuitBreaker.recordFailure]
        using hth ▸ h1, ?_⟩
      intro htag
      simp only [CircuitBreaker.runWrapped, CircuitBreaker.recordFailure] at htag ⊢
      by_cases hle : c.failureThreshold ≤ c.failureCount + 1
      · simpa using hle
      · simp only [hle, if_false, reduceIte] at htag
        exact Nat.le_succ_of_le (hc htag)
  by_cases ho : cb.tag = .opened
  · by_cases hr : cb.shouldAttemptReset now = true
    · have := hrun { cb with tag := .halfOpen } rfl (by simp) (fun _ => h2 (by simp [ho]))
      simpa [CircuitBreaker.call, ho, hr] using this
    · simp only [CircuitBreaker.call, ho, if_true, reduceIte,
        Bool.not_eq_true] at hr ⊢
      simp only [hr, Bool.false_eq_true, if_false, reduceIte]
      exact ⟨h1, h2⟩
  · have := hrun cb rfl ho h2
    simpa [CircuitBreaker.call, ho] using this

/-- C4: the circuit breaker obeys the specified state machine.
With the reachability invariant in force:
(a) a failing call that brings `failure_count` to the threshold opens it;
(b) while OPEN and strictly within `recovery_timeout` of the last failure,
    a call fails fast, the wrapped function is not invoked, and the state
    is unchanged;
(c) once `recovery_timeout` has elapsed the next call is attempted
    (the wrapped function runs);
(d) a HALF_OPEN success returns it to CLOSED with `failure_count = 0`;
(e) a HALF_OPEN failure returns it to OPEN. -/
theorem circuit_breaker_state_machine (cb : CircuitBreaker) (now t : ℚ)
    (success : Bool) (hInv : cb.Inv) :
    (cb.tag = .closed → cb.failureCount + 1 = cb.failureThreshold →
      (cb.call now false).1.tag = .opened) ∧
    (cb.tag = .opened → cb.lastFailureTime = some t → now - t < cb.recoveryTimeout →
      cb.call now success = (cb, .failFast)) ∧
    (cb.tag = .opened → cb.lastFailureTime = some t → cb.recoveryTimeout ≤ now - t →
      (cb.call now success).2 = .ran success) ∧
    (cb.tag = .halfOpen → (cb.call now true).1.tag = .closed ∧
      (cb.call now true).1.failureCount = 0) ∧
    (cb.tag = .halfOpen → (cb.call now false).1.tag = .opened) := by
  obtain ⟨h1, h2⟩ := hInv
  refine ⟨?_, ?_, ?_, ?_, ?_⟩
  · intro hc hth
    simp [CircuitBreaker.call, CircuitBreaker.runWrapped, CircuitBreaker.recordFailure,
      hc, ← hth]
  · intro ho hlf hlt
    have : cb.shouldAttemptReset now = false := by
      simp [CircuitBreaker.shouldAttemptReset, hlf]
      linarith
    simp [CircuitBreaker.call, ho, this]
  · intro ho hlf hge
    have : cb.shouldAttemptReset now = true := by
      simp [CircuitBreaker.shouldAttemptReset, hlf, hge]
    cases success <;>
      simp [CircuitBreaker.call, ho, this, CircuitBreaker.runWrapped]
  · intro hh
    have ho : cb.tag ≠ .opened := by simp [hh]
    simp [CircuitBreaker.call, ho, CircuitBreaker.runWrapped, hh]
  · intro hh
    have ho : cb.tag ≠ .opened := by simp [hh]
    have hcnt : cb.failureThreshold ≤ cb.failureCount := h2 (by simp [hh])
    simp [CircuitBreaker.call, ho, CircuitBreaker.runWrapped,
      CircuitBreaker.recordFailure]
    omega

/-- Witness for C4 at a concrete breaker: threshold 2, timeout 30 s,
one failure already recorded at time 0, invariant holds, and the failing
call at time 1 opens the breaker. -/
theorem circuit_breaker_state_machine_witness :
    (CircuitBreaker.Inv ⟨2, 30, 1, some 0, .closed⟩) ∧
    ((⟨2, 30, 1, some 0, .closed⟩ : CircuitBreaker).call 1 false).1.tag = .opened := by
  have hInv : CircuitBreaker.Inv ⟨2, 30, 1, some 0, .closed⟩ :=
    ⟨by norm_num, fun h => absurd rfl h⟩
  refine ⟨hInv, ?_⟩
  exact (circuit_breaker_state_machine ⟨2, 30, 1, some 0, .closed⟩ 1 0 false hInv).1
    rfl rfl

/-- C1 counterexample: in the partial-failure scenario (batch `[1,2,3]`,
second record failing on every attempt) the code does NOT re-queue exactly
the failed record at the head, does NOT increment `failed_records` by one,
and does NOT credit `total_records` with the two successes: it re-sends
the whole batch three times, appends the failed record to the tail on each
attempt, then re-queues the entire batch, ending with queue
`[2,2,2,1,2,3]`, `failed_records = 3` and `total_records = 0`. -/
theorem kinesis_partial_failure_counterexample :
    c1Result.stats.failed_records = 3 ∧
    c1Result.stats.total_records = 0 ∧
    c1Result.queue = [2, 2, 2, 1, 2, 3] ∧
    ¬ (c1Result.stats.failed_records = 1 ∧ c1Result.stats.total_records = 2 ∧
       c1Result.queue = [2]) := by decide

/-- C1 amended: on a per-record partial failure the producer raises
`PartialFailure`, so the retry decorator re-sends the whole batch (three
attempts in total), each attempt appending the failed record to the TAIL
of the stream's queue; after exhaustion `_flush_stream` appends the entire
original batch to the queue (the queue being below the 1000 high-water
mark), increments `failed_records` by the full batch size and `errors` by
one, leaves `total_records` and `batches_sent` unchanged, and records one
breaker failure (breaker still CLOSED). -/
theorem kinesis_partial_failure_amended :
    c1Result.queue = [2, 2, 2, 1, 2, 3] ∧
    c1Result.stats.failed_records = 3 ∧
    c1Result.stats.total_records = 0 ∧
    c1Result.stats.errors = 1 ∧
    c1Result.stats.batches_sent = 0 ∧
    c1Result.breaker.tag = .closed ∧
    c1Result.breaker.failureCount = 1 := by decide

/-- C3: the resumable backfill scenario yields exactly three normalized
records (the three mocked trades, no record twice), finishes with
`checkpoint.last_timestamp = 1_700_000_050_001` and `total_records = 3`,
and the final empty page advances the cursor to `batch_end + 1 =
1_700_000_060_001` with the loop running to completion. -/
theorem backfill_scenario :
    c3Run.1.map (fun r => r.event_ts) =
      [1700000010000, 1700000030000, 1700000050000] ∧
    c3Run.1.map (fun r => r.trade_id) = [1, 2, 3] ∧
    c3Run.1.Nodup ∧
    c3Run.2.1 = some ⟨"BTCUSDT", 1700000050001, some 3, 3⟩ ∧
    c3Run.2.2.1 = 1700000060001 ∧
    c3Run.2.2.2 = true := by decide

/-- C2: the exchange's decimal string `"0.1"` (and its equal-valued
spelling `"0.10"`) denotes exactly `1/10`, and NO binary floating-point
value — hence no possible result of the `float(trade['p'])` conversion in
`backfill_agg_trades` — equals `1/10`.  The stored price therefore cannot
round-trip exactly against the API string, contradicting the decimal
discipline the spec requires of the normalized `price`/`qty` fields. -/
theorem price_float_conversion_not_exact :
    decimalToRat "0.1" = some (1 / 10) ∧
    decimalToRat "0.10" = some (1 / 10) ∧
    ∀ q : ℚ, IsDouble q → q ≠ 1 / 10 := by
  have hb : mkRat (Int.ofNat 1) 10 = (1 / 10 : ℚ) := by
    rw [Rat.mkRat_eq_div]; norm_num
  have h1 : decimalToRat "0.1" = some (mkRat (Int.ofNat 1) 10) := by decide
  have h2 : decimalToRat "0.10" = some (mkRat (Int.ofNat 1) 10) := by decide
  refine ⟨by rw [h1, hb], by rw [h2, hb], ?_⟩
  rintro q ⟨m, k, _, h | h⟩ hq
  · rw [hq] at h
    have h2 : (1 : ℤ) = 10 * m * 2 ^ k := by
      have : ((1 : ℤ) : ℚ) = ((10 * m * 2 ^ k : ℤ) : ℚ) := by
        push_cast
        field_simp at h
        linarith
      exact_mod_cast this
    have hdvd : (10 : ℤ) ∣ 1 := ⟨m * 2 ^ k, by linarith⟩
    norm_num at hdvd
  · rw [hq] at h
    have hpow : ((2 : ℚ) ^ k) ≠ 0 := by positivity
    have h2 : (2 : ℤ) ^ k = 10 * m := by
      have : (((2 : ℤ) ^ k : ℤ) : ℚ) = ((10 * m : ℤ) : ℚ) := by
        push_cast
        field_simp at h
        linarith
      exact_mod_cast this
    have hdvd : (5 : ℤ) ∣ 2 ^ k := ⟨2 * m, by linarith⟩
    have hp : Prime (5 : ℤ) := by norm_num
    have := hp.dvd_of_dvd_pow hdvd
    norm_num at this

/-- Witness for C2 at the concrete double `0`
(significand 0, exponent 0): `0 ≠ 1/10`. -/
theorem price_float_conversion_not_exact_witness :
    IsDouble 0 ∧ (0 : ℚ) ≠ 1 / 10 :=
  ⟨⟨0, 0, by norm_num, Or.inl (by norm_num)⟩,
   price_float_conversion_not_exact.2.2 0 ⟨0, 0, by norm_num, Or.inl (by norm_num)⟩⟩

/-- C9: the transform path performs NO timestamp range validation.  Any
aggTrade record with the six required fields present and convertible
decimals is transformed into a row whose `timestamp` is its raw
`event_ts` — whatever that is — and handed to the writer with
`records_transformed = 1` and `validation_errors = 0`.
(`_validate_timestamp`, which would reject it, is never called.) -/
theorem transformer_no_timestamp_validation
    (r : RawAggTrade) (sym : String) (ts tid : Int) (p q : String) (bm : Bool)
    (pv qv : ℚ)
    (hsym : r.symbol = some sym) (hts : r.event_ts = some ts)
    (htid : r.trade_id = some tid) (hp : r.price = some p)
    (hq : r.qty = some q) (hbm : r.is_buyer_maker = some bm)
    (hpv : safeDecimalConvert (some p) = some pv)
    (hqv : safeDecimalConvert (some q) = some qv) :
    ∃ row : TransformedRow,
      transformBatchAggTrades [r] = ([row], ⟨1, 0, 0⟩) ∧
      row.timestamp = ts := by
  refine ⟨{ symbol := sym, timestamp := ts, price := pv, volume := qv,
            trade_id := tid, is_buyer_maker := bm, source := r.source.getD "rest",
            data_type := "aggTrade", ingest_timestamp := r.ingest_ts }, ?_, rfl⟩
  have htr : transformAggTrade r =
      some { symbol := sym, timestamp := ts, price := pv, volume := qv,
             trade_id := tid, is_buyer_maker := bm, source := r.source.getD "rest",
             data_type := "aggTrade", ingest_timestamp := r.ingest_ts } := by
    unfold transformAggTrade
    simp only [hsym, hts, htid, hp, hq, hbm, hpv, hqv]
  simp [transformBatchAggTrades, htr]

/-- Witness for C9: the concrete 1970-timestamped record `epochRawTrade`
is out of range for the (dead) validator, yet is transformed into a row
with `timestamp = 0`, counted as transformed, with zero validation
errors. -/
theorem transformer_no_timestamp_validation_witness :
    validateTimestamp 0 = none ∧
    ∃ row : TransformedRow,
      transformBatchAggTrades [epochRawTrade] = ([row], ⟨1, 0, 0⟩) ∧
      row.timestamp = 0 := by
  refine ⟨by decide, ?_⟩
  exact transformer_no_timestamp_validation epochRawTrade "BTCUSDT" 0 42
    "37000.1" "0.5" false (mkRat (Int.ofNat 370001) 10) (mkRat (Int.ofNat 5) 10)
    rfl rfl rfl rfl rfl rfl (by decide) (by decide)

/-- C10: `read_file` adds the key to the consumed-set only after fetch,
optional gzip decompression and decode have all succeeded.  If any of
those steps raises, the set is unchanged and `_process_s3_object` will
return the same (recent, data-suffixed, unconsumed) object again in a
later discovery cycle; when the steps succeed, the key is marked consumed
and the records are exactly the parseable non-blank lines — individually
malformed lines are skipped without preventing consumption. -/
theorem reader_marks_consumed_only_after_full_parse
    {Raw Rec : Type}
    (fetch : Except ReadErr Raw) (gunzip : Raw → Except ReadErr Raw)
    (decodeUtf8 : Raw → Except ReadErr String) (parseJson : String → Option Rec)
    (processed : List String) (key : String)
    (hnew : key ∉ processed) (hdata : isDataFile key = true) :
    (∀ e, (readFile fetch gunzip decodeUtf8 parseJson processed key).1 = .error e →
      (readFile fetch gunzip decodeUtf8 parseJson processed key).2 = processed ∧
      ∀ lm cutoff : Nat, cutoff < lm →
        processS3Object
          (readFile fetch gunzip decodeUtf8 parseJson processed key).2
          key lm cutoff = some key) ∧
    (∀ (raw raw2 : Raw) (contentStr : String),
      fetch = .ok raw →
      (if pyEndsWith key ".gz" then gunzip raw else .ok raw) = .ok raw2 →
      decodeUtf8 raw2 = .ok contentStr →
      readFile fetch gunzip decodeUtf8 parseJson processed key =
        (.ok ((splitLines (stripStr contentStr)).filterMap fun line =>
            if line.toList.all Char.isWhitespace then none else parseJson line),
          key :: processed)) := by
  constructor
  · intro e herr
    have hsame :
        (readFile fetch gunzip decodeUtf8 parseJson processed key).2 = processed := by
      unfold readFile at herr ⊢
      cases hf : fetch with
      | error e1 => simp [hf]
      | ok raw =>
        cases hg : (if pyEndsWith key ".gz" then gunzip raw else .ok raw) with
        | error e2 => simp [hf, hg]
        | ok raw2 =>
          cases hd : decodeUtf8 raw2 with
          | error e3 => simp [hf, hg, hd]
          | ok contentStr => simp [hf, hg, hd] at herr
    refine ⟨hsame, ?_⟩
    intro lm cutoff hlt
    rw [hsame]
    unfold processS3Object
    simp [hnew, hdata, Nat.not_le_of_lt hlt, Nat.lt_irrefl]
  · intro raw raw2 contentStr hf hg hd
    unfold readFile
    simp only [hf, hg, hd]

/-- Witness for C10 on a concrete gzipped object with one malformed line:
the error runs leave the consumed-set untouched and the object
rediscoverable; the successful run consumes the key and yields the two
parseable records. -/
theorem reader_marks_consumed_only_after_full_parse_witness :
    (@readFile String Nat (.error .fetchFailed)
        (fun r => .ok r) (fun r => .ok r) (fun _ => none) []
        "bronze/BTCUSDT/aggTrades/f.jsonl.gz").2 = [] ∧
    processS3Object
      (@readFile String Nat (.error .fetchFailed)
        (fun r => .ok r) (fun r => .ok r) (fun _ => none) []
        "bronze/BTCUSDT/aggTrades/f.jsonl.gz").2
      "bronze/BTCUSDT/aggTrades/f.jsonl.gz" 5 4 =
      some "bronze/BTCUSDT/aggTrades/f.jsonl.gz" ∧
    @readFile String Nat (.ok "GZBYTES")
        (fun _ => .ok "alpha\nBAD\nbeta\n") (fun r => .ok r)
        (fun l => if l = "alpha" then some 1 else
          if l = "beta" then some 2 else none) []
        "bronze/BTCUSDT/aggTrades/f.jsonl.gz" =
      (.ok [1, 2], ["bronze/BTCUSDT/aggTrades/f.jsonl.gz"]) := by
  have hnew : "bronze/BTCUSDT/aggTrades/f.jsonl.gz" ∉ ([] : List String) := by
    simp
  have hdata : isDataFile "bronze/BTCUSDT/aggTrades/f.jsonl.gz" = true := by decide
  have h1 := (@reader_marks_consumed_only_after_full_parse String Nat
    (.error .fetchFailed)
    (fun r => .ok r) (fun r => .ok r) (fun _ => none) []
    "bronze/BTCUSDT/aggTrades/f.jsonl.gz" hnew hdata).1 .fetchFailed rfl
  have h2 := (@reader_marks_consumed_only_after_full_parse String Nat
    (.ok "GZBYTES")
    (fun _ => .ok "alpha\nBAD\nbeta\n") (fun r => .ok r)
    (fun l => if l = "alpha" then some 1 else
      if l = "beta" then some 2 else none) []
    "bronze/BTCUSDT/aggTrades/f.jsonl.gz" hnew hdata).2
    "GZBYTES" "alpha\nBAD\nbeta\n" "alpha\nBAD\nbeta\n" rfl rfl rfl
  refine ⟨h1.1, h1.2 5 4 (by norm_num), ?_⟩
  rw [h2]
  rfl

/-- Helper: membership in `insertStable`. -/
theorem mem_insertStable (x m : BBAMsg) (l : List BBAMsg) :
    x ∈ insertStable m l ↔ x = m ∨ x ∈ l := by
  induction l with
  | nil => simp [insertStable]
  | cons y ys ih =>
    by_cases hk : bbaSortKey y ≤ bbaSortKey m <;>
      simp only [insertStable, hk, if_true, if_false, reduceIte,
        List.mem_cons, ih] <;>
      tauto

/-- Helper: sorting preserves membership. -/
theorem mem_sortByEventTs (x : BBAMsg) (l : List BBAMsg) (hx : x ∈ l) :
    x ∈ sortByEventTs l := by
  unfold sortByEventTs
  suffices h : ∀ acc : List BBAMsg, x ∈ acc ∨ x ∈ l →
      x ∈ l.foldl (fun acc m => insertStable m acc) acc by
    exact h [] (Or.inr hx)
  clear hx
  induction l with
  | nil => intro acc h; simpa using h.resolve_right (by simp)
  | cons y ys ih =>
    intro acc h
    simp only [List.foldl_cons]
    apply ih
    rcases h with h | h
    · exact Or.inl ((mem_insertStable x y acc).mpr (Or.inr h))
    · rcases List.mem_cons.mp h with h | h
      · exact Or.inl ((mem_insertStable x y acc).mpr (Or.inl h))
      · exact Or.inr h

/-- C5: a bestBidAsk window containing at least one valid update (positive
bid and ask price) NEVER yields a feature record: evaluating the feature
dict raises `NameError` on the unbound `latest_bid_size`, `build_features`
swallows it, increments `computation_errors`, and returns `None`.  In
particular no record with the latest bid-size/ask-size fields is ever
produced, contradicting the claim. -/
theorem bestbidask_window_never_yields_record
    (symbol : String) (msgs : List BBAMsg) (nowSec errs : Nat)
    (h : ∃ m ∈ msgs, ∃ d, m.data = some d ∧ validBBA d = true) :
    buildFeatures symbol msgs nowSec errs = (none, errs + 1) := by
  obtain ⟨m, hm, d, hd, hv⟩ := h
  have hne : msgs.isEmpty = false := by
    cases msgs with
    | nil => cases hm
    | cons _ _ => rfl
  have hmem : m ∈ sortByEventTs msgs := mem_sortByEventTs m msgs hm
  have hupd : d ∈ (sortByEventTs msgs).filterMap (fun m => m.data) :=
    List.mem_filterMap.mpr ⟨m, hmem, hd⟩
  have hval : d ∈ ((sortByEventTs msgs).filterMap (fun m => m.data)).filter validBBA :=
    List.mem_filter.mpr ⟨hupd, hv⟩
  have hupdne : ((sortByEventTs msgs).filterMap (fun m => m.data)).isEmpty = false := by
    cases hc : (sortByEventTs msgs).filterMap (fun m => m.data) with
    | nil => rw [hc] at hupd; cases hupd
    | cons _ _ => rfl
  have hvalne :
      (((sortByEventTs msgs).filterMap (fun m => m.data)).filter validBBA).isEmpty
        = false := by
    cases hc : ((sortByEventTs msgs).filterMap (fun m => m.data)).filter validBBA with
    | nil => rw [hc] at hval; cases hval
    | cons _ _ => rfl
  have hob : buildOrderbookFeatures (sortByEventTs msgs) =
      .error (.nameError "latest_bid_size") := by
    unfold buildOrderbookFeatures
    simp only [hupdne, hvalne, Bool.false_eq_true, if_false, reduceIte]
  unfold buildFeatures
  simp only [hne, Bool.false_eq_true, if_false, reduceIte, hob]

/-- Witness for C5: a single valid bestBidAsk update (bid 100 × 1,
ask 101 × 2) produces no feature record and one computation error. -/
theorem bestbidask_window_never_yields_record_witness :
    buildFeatures "BTCUSDT" [⟨some ⟨1700000000000, 100, 101, 1, 2⟩, 0⟩]
      1700000001 0 = (none, 1) :=
  bestbidask_window_never_yields_record "BTCUSDT" _ 1700000001 0
    ⟨⟨some ⟨1700000000000, 100, 101, 1, 2⟩, 0⟩, List.mem_singleton.mpr rfl,
      ⟨1700000000000, 100, 101, 1, 2⟩, rfl, by norm_num [validBBA]⟩

/-- C8: for the C7-key-generation scenario — `symbol="BTCUSDT"`,
`data_type="aggTrades"`, compression on, write timestamp
`1_700_000_000_000` ms (UTC 2023-11-14 22:13:20, the record's `event_ts`)
— `_build_s3_key` produces exactly the claimed object key. -/
theorem s3_key_generation_scenario :
    buildS3Key "bronze" "aggTrades" "BTCUSDT" true 1700000000000 =
      "bronze/BTCUSDT/aggTrades/yyyy=2023/mm=11/dd=14/hh=22/aggTrades_20231114_221320.jsonl.gz" := by
  decide

/-- C7 counterexample: with `max_records_per_symbol = 2`, the trace
`a, b, c, a` for one symbol at one instant makes `is_unique` return true
for `("a", "S")` TWICE zero seconds apart (well inside the window): the
insertion of `c` trims the oldest entry `a`, so the second `a` is a miss
again.  The claim's "true at most once per window, for every interleaving
of calls for other records" is false on the code. -/
theorem dedup_double_unique_counterexample :
    c7Run.2.1 = [true, true, true, true] ∧
    (mkRat 0 1 : ℚ) - mkRat 0 1 < c7Cfg.windowSeconds := by
  with_unfolding_all decide

/-- Helper: `find?` survives a `filter` that keeps the found element. -/
theorem find?_filter_of_find? {α : Type} (p f : α → Bool) {l : List α} {a : α}
    (h : l.find? p = some a) (hf : f a = true) :
    (l.filter f).find? p = some a := by
  induction l with
  | nil => simp at h
  | cons x xs ih =>
    by_cases px : p x = true
    · rw [List.find?_cons_of_pos _ px] at h
      have hxa : x = a := by injection h
      subst hxa
      rw [List.filter_cons_of_pos hf, List.find?_cons_of_pos _ px]
    · rw [List.find?_cons_of_neg _ (by simpa using px)] at h
      by_cases fx : f x = true
      · rw [List.filter_cons_of_pos fx, List.find?_cons_of_neg _ (by simpa using px)]
        exact ih h
      · rw [List.filter_cons_of_neg (by simpa using fx)]
        exact ih h

/-- Helper: `find?` of the left part survives an append. -/
theorem find?_append_of_find? {α : Type} (p : α → Bool) {l : List α}
    (l' : List α) {a : α} (h : l.find? p = some a) :
    (l ++ l').find? p = some a := by
  induction l with
  | nil => simp at h
  | cons x xs ih =>
    by_cases px : p x = true
    · rw [List.find?_cons_of_pos _ px] at h
      rw [List.cons_append, List.find?_cons_of_pos _ px]
      exact h
    · rw [List.find?_cons_of_neg _ (by simpa using px)] at h
      rw [List.cons_append, List.find?_cons_of_neg _ (by simpa using px)]
      exact ih h

/-- Helper: updating key `k` in place does not disturb the first entry of
a different key. -/
theorem find?_map_keyUpdate {β : Type} {l : List (String × β)} {key k : String}
    {a : String × β} (v : β)
    (h : l.find? (fun e => e.1 = key) = some a) (hk : k ≠ key) :
    (l.map (fun e => if e.1 = k then (k, v) else e)).find?
      (fun e => e.1 = key) = some a := by
  induction l with
  | nil => simp at h
  | cons x xs ih =>
    by_cases hx : x.1 = key
    · rw [List.find?_cons_of_pos _ (by simpa using hx)] at h
      have hxk : ¬ x.1 = k := by rw [hx]; exact fun hc => hk hc.symm
      rw [List.map_cons, if_neg hxk, List.find?_cons_of_pos _ (by simpa using hx)]
      exact h
    · rw [List.find?_cons_of_neg _ (by simpa using hx)] at h
      rw [List.map_cons]
      by_cases hxk : x.1 = k
      · rw [if_pos hxk,
          List.find?_cons_of_neg _ (by simpa using fun hc => hk hc)]
        exact ih h
      · rw [if_neg hxk, List.find?_cons_of_neg _ (by simpa using hx)]
        exact ih h

/-- Helper: after updating key `k` in place, the first `k`-entry carries
the new value. -/
theorem find?_map_keySet {β : Type} {l : List (String × β)} {k : String}
    (v : β) (h : l.any (fun e => e.1 = k) = true) :
    (l.map (fun e => if e.1 = k then (k, v) else e)).find?
      (fun e => e.1 = k) = some (k, v) := by
  induction l with
  | nil => simp at h
  | cons x xs ih =>
    rw [List.map_cons]
    by_cases hx : x.1 = k
    · rw [if_pos hx, List.find?_cons_of_pos _ (by simp)]
    · rw [if_neg hx, List.find?_cons_of_neg _ (by simpa using hx)]
      refine ih ?_
      rcases List.any_eq_true.mp h with ⟨e, he, hek⟩
      rcases List.mem_cons.mp he with rfl | he'
      · exact absurd (by simpa using hek) hx
      · exact List.any_eq_true.mpr ⟨e, he', hek⟩

/-- Helper: a successful `find?` forces `any` to hold. -/
theorem any_of_find? {α : Type} {p : α → Bool} {l : List α} {a : α}
    (h : l.find? p = some a) : l.any p = true :=
  List.any_eq_true.mpr ⟨a, List.mem_of_find?_eq_some h, List.find?_some h⟩

/-- Helper: a trim pass that evicted nothing left the dict unchanged. -/
theorem trimAux_seen_of_no_evictions (q : List (String × ℚ)) :
    ∀ (seen : List (String × ℚ)) (toRemove : Nat),
      (trimAux q seen toRemove).2.2 = 0 →
      (trimAux q seen toRemove).2.1 = seen := by
  induction q with
  | nil => intro seen toRemove _; rfl
  | cons e rest ih =>
    intro seen toRemove h
    by_cases h0 : toRemove = 0
    · simp [trimAux, h0]
    · by_cases ha : seen.any (fun x => x.1 = e.1) = true
      · exfalso
        simp only [trimAux, h0, if_false, ha, if_true, reduceIte] at h
        omega
      · simp only [trimAux, h0, ha, if_false, reduceIte, Bool.false_eq_true] at h ⊢
        exact ih seen toRemove h

/-- The record `(id ↦ t0)` is present in `symbol`'s seen-dict, as its
first `id`-keyed entry. -/
def SeenAt (st : DedupState) (symbol id : String) (t0 : ℚ) : Prop :=
  (getSymbol st.symbols symbol).seen.find? (fun e => e.1 = id) = some (id, t0)

/-- Helper: unpack `SeenAt` into the symbol-map entry. -/
theorem SeenAt_elim {st : DedupState} {symbol id : String} {t0 : ℚ}
    (hP : SeenAt st symbol id t0) :
    ∃ S : SymbolState,
      st.symbols.find? (fun e => e.1 = symbol) = some (symbol, S) ∧
      S.seen.find? (fun e => e.1 = id) = some (id, t0) := by
  unfold SeenAt getSymbol at hP
  cases hfs : st.symbols.find? (fun e => e.1 = symbol) with
  | none => rw [hfs] at hP; simp at hP
  | some e =>
    rw [hfs] at hP
    have hkey : e.1 = symbol := by simpa using List.find?_some hfs
    obtain ⟨efst, esnd⟩ := e
    simp only at hkey hP
    subst hkey
    exact ⟨esnd, rfl, hP⟩

/-- Helper: the per-symbol cleanup sweep keeps the first entry of a symbol
whose cleaned dict is non-empty. -/
theorem find?_filterMap_clean (cutoff : ℚ) (symbol : String) (S : SymbolState)
    (hne : (cleanSym cutoff S).seen.isEmpty = false) :
    ∀ syms : List (String × SymbolState),
      syms.find? (fun e => e.1 = symbol) = some (symbol, S) →
      (syms.filterMap fun e =>
        let s' := cleanSym cutoff e.2
        if s'.seen.isEmpty then none else some (e.1, s')).find?
        (fun e => e.1 = symbol) = some (symbol, cleanSym cutoff S) := by
  intro syms
  induction syms with
  | nil => intro hfs; simp at hfs
  | cons x xs ih =>
    intro hfs
    by_cases hx : x.1 = symbol
    · rw [List.find?_cons_of_pos _ (by simpa using hx)] at hfs
      have hxS : x = (symbol, S) := by injection hfs
      subst hxS
      rw [List.filterMap_cons_some (by
        simp only [hne, Bool.false_eq_true, if_false, reduceIte]
        rfl)]
      exact List.find?_cons_of_pos _ (by simp)
    · rw [List.find?_cons_of_neg _ (by simpa using hx)] at hfs
      cases hemp : (cleanSym cutoff x.2).seen.isEmpty with
      | true =>
        rw [List.filterMap_cons_none (by simp only [hemp, if_true,
          reduceIte])]
        exact ih hfs
      | false =>
        rw [List.filterMap_cons_some (by
          simp only [hemp, Bool.false_eq_true, if_false, reduceIte]
          rfl)]
        rw [List.find?_cons_of_neg _ (by simpa using hx)]
        exact ih hfs

/-- Helper: the cleanup sweep keeps a within-window entry. -/
theorem cleanup_preserves_SeenAt (cfg : DedupCfg) (st : DedupState)
    (symbol id : String) (t0 now : ℚ)
    (hP : SeenAt st symbol id t0) (hcut : now - cfg.windowSeconds ≤ t0) :
    SeenAt (dedupCleanup cfg st now) symbol id t0 := by
  obtain ⟨S, hfs, hid⟩ := SeenAt_elim hP
  have hkeep : (fun e : String × ℚ => decide (now - cfg.windowSeconds ≤ e.2))
      (id, t0) = true := by simpa using hcut
  have hid' : (cleanSym (now - cfg.windowSeconds) S).seen.find?
      (fun e => e.1 = id) = some (id, t0) :=
    find?_filter_of_find? _ _ hid hkeep
  have hne : (cleanSym (now - cfg.windowSeconds) S).seen.isEmpty = false := by
    cases hc : (cleanSym (now - cfg.windowSeconds) S).seen with
    | nil => rw [hc] at hid'; simp at hid'
    | cons _ _ => rfl
  have hfind := find?_filterMap_clean (now - cfg.windowSeconds) symbol S hne
    st.symbols hfs
  unfold SeenAt getSymbol dedupCleanup
  simp only
  rw [hfind]
  exact hid'

/-- Helper: one `is_unique` call for any other record — any id, any
symbol, any wall time up to the probe time — preserves a within-window
seen-entry, provided its trim pass evicted nothing. -/
theorem dedupCheck_preserves_SeenAt (cfg : DedupCfg) (st1 : DedupState)
    (symbol id : String) (t0 tq : ℚ) (id' sym' : String) (t' : ℚ)
    (hP1 : SeenAt st1 symbol id t0)
    (ht : t' ≤ tq) (hwin : tq - t0 < cfg.windowSeconds)
    (hno : (dedupCheck cfg st1 id' sym' t').2.2 = 0) :
    SeenAt (dedupCheck cfg st1 id' sym' t').1 symbol id t0 := by
  unfold dedupCheck at hno ⊢
  obtain ⟨S1, hfs1, hid1⟩ := SeenAt_elim hP1
  have hget : getSymbol st1.symbols symbol = S1 := by
    unfold getSymbol
    rw [hfs1]
  -- `setSymbol` preservation, split over whether the touched symbol is ours
  have hpres : ∀ v : SymbolState,
      (sym' = symbol →
        (getSymbol (setSymbol st1.symbols sym' v) symbol).seen.find?
          (fun e => e.1 = id) = v.seen.find? (fun e => e.1 = id)) ∧
      (sym' ≠ symbol →
        SeenAt { st1 with symbols := setSymbol st1.symbols sym' v }
          symbol id t0) := by
    intro v
    constructor
    · intro hss
      subst hss
      unfold setSymbol
      rw [if_pos (any_of_find? hfs1)]
      unfold getSymbol
      rw [find?_map_keySet v (any_of_find? hfs1)]
    · intro hss
      unfold SeenAt setSymbol
      by_cases hany : st1.symbols.any (fun e => e.1 = sym') = true
      · rw [if_pos hany]
        unfold getSymbol
        have := find?_map_keyUpdate v hfs1 hss
        simp only at this ⊢
        rw [this]
        exact hid1
      · rw [if_neg hany]
        unfold getSymbol
        rw [find?_append_of_find? _ _ hfs1]
        exact hid1
  by_cases hsym : sym' = symbol
  · subst hsym
    rw [hget] at hno ⊢
    cases hlk : lookupA S1.seen id' with
    | some existing =>
      rw [hlk] at hno
      by_cases hdup : t' - existing < cfg.windowSeconds
      · simp only [hdup, if_true, reduceIte]
        unfold SeenAt
        rw [(hpres S1).1 rfl]
        exact hid1
      · -- outside-window re-stamp: the touched id cannot be ours
        have hne : id' ≠ id := by
          intro hii
          subst hii
          have : existing = t0 := by
            unfold lookupA at hlk
            rw [hid1] at hlk
            simpa using hlk.symm
          subst this
          exact hdup (by linarith)
        simp only [hdup, if_false, reduceIte]
        unfold SeenAt
        rw [(hpres _).1 rfl]
        exact find?_map_keyUpdate t' hid1 hne
    | none =>
      rw [hlk] at hno
      have happ : (S1.seen ++ [(id', t')]).find? (fun e => e.1 = id) =
          some (id, t0) := find?_append_of_find? _ _ hid1
      by_cases hov : cfg.maxRecordsPerSymbol < (S1.seen ++ [(id', t')]).length
      · simp only [hov, if_true, reduceIte] at hno ⊢
        unfold SeenAt
        rw [(hpres _).1 rfl]
        simp only
        rw [trimAux_seen_of_no_evictions _ _ _ hno]
        exact happ
      · simp only [hov, if_false, reduceIte]
        unfold SeenAt
        rw [(hpres _).1 rfl]
        exact happ
  · -- other symbol: our symbol's state is untouched
    cases hlk : lookupA (getSymbol st1.symbols sym').seen id' with
    | some existing =>
      rw [hlk] at hno
      by_cases hdup : t' - existing < cfg.windowSeconds
      · simp only [hdup, if_true, reduceIte]
        exact (hpres _).2 hsym
      · simp only [hdup, if_false, reduceIte]
        exact (hpres _).2 hsym
    | none =>
      rw [hlk] at hno
      by_cases hov : cfg.maxRecordsPerSymbol <
          ((getSymbol st1.symbols sym').seen ++ [(id', t')]).length
      · simp only [hov, if_true, reduceIte] at hno ⊢
        exact (hpres _).2 hsym
      · simp only [hov, if_false, reduceIte]
        exact (hpres _).2 hsym

/-- Helper: one `is_unique` call for any other record — any id, any
symbol, any wall time up to the probe time — preserves a within-window
seen-entry, provided its trim pass evicted nothing. -/
theorem isUnique_preserves_SeenAt (cfg : DedupCfg) (st : DedupState)
    (symbol id : String) (t0 tq : ℚ) (id' : String) (ts' : Int)
    (sym' : String) (t' : ℚ)
    (hP : SeenAt st symbol id t0)
    (ht : t' ≤ tq) (hwin : tq - t0 < cfg.windowSeconds)
    (hno : (isUnique cfg st id' ts' sym' t').2.2 = 0) :
    SeenAt (isUnique cfg st id' ts' sym' t').1 symbol id t0 := by
  have hcut : t' - cfg.windowSeconds ≤ t0 := by linarith
  have hP1 : SeenAt
      (if cfg.cleanupInterval < t' - st.lastCleanup
        then dedupCleanup cfg st t' else st) symbol id t0 := by
    by_cases hcl : cfg.cleanupInterval < t' - st.lastCleanup
    · rw [if_pos hcl]
      exact cleanup_preserves_SeenAt cfg st symbol id t0 t' hP hcut
    · rw [if_neg hcl]
      exact hP
  exact dedupCheck_preserves_SeenAt cfg _ symbol id t0 tq id' sym' t' hP1 ht
    hwin hno

/-- Helper: a run of other calls (times ≤ the probe time, no trim
evictions) preserves a within-window seen-entry. -/
theorem runDedup_preserves_SeenAt (cfg : DedupCfg)
    (calls : List (String × Int × String × ℚ)) :
    ∀ (st : DedupState) (symbol id : String) (t0 tq : ℚ),
      SeenAt st symbol id t0 →
      tq - t0 < cfg.windowSeconds →
      (∀ c ∈ calls, c.2.2.2 ≤ tq) →
      (runDedup cfg st calls).2.2 = 0 →
      SeenAt (runDedup cfg st calls).1 symbol id t0 := by
  induction calls with
  | nil => intro st symbol id t0 tq hP _ _ _; exact hP
  | cons c rest ih =>
    intro st symbol id t0 tq hP hwin htimes hno
    obtain ⟨cid, cts, csym, cnow⟩ := c
    simp only [runDedup] at hno ⊢
    have hc1 : (isUnique cfg st cid cts csym cnow).2.2 = 0 := by omega
    have hcrest :
        (runDedup cfg (isUnique cfg st cid cts csym cnow).1 rest).2.2 = 0 := by
      omega
    have hP1 := isUnique_preserves_SeenAt cfg st symbol id t0 tq cid cts csym
      cnow hP (htimes _ (List.mem_cons_self _ _)) hwin hc1
    exact ih _ symbol id t0 tq hP1 hwin
      (fun c hc => htimes c (List.mem_cons_of_mem _ hc)) hcrest

/-- C7 amended: `is_unique` returns true at most once per window UNLESS
the per-symbol LRU trim evicts the entry in between.  Precisely: after a
call for `(id, symbol)` returning true at wall time `t0` left the entry
`(id ↦ t0)` in the seen-dict, any interleaving of further calls — any
records, any symbols — whose wall times do not exceed the probe time and
whose trim passes evict nothing, leaves a probe for `(id, symbol)` within
`window_seconds` of `t0` returning false. -/
theorem dedup_unique_at_most_once_amended (cfg : DedupCfg) (st : DedupState)
    (id symbol : String) (t0 tq : ℚ) (ts : Int)
    (calls : List (String × Int × String × ℚ))
    (hP : SeenAt st symbol id t0)
    (hwin : tq - t0 < cfg.windowSeconds)
    (htimes : ∀ c ∈ calls, c.2.2.2 ≤ tq)
    (hno : (runDedup cfg st calls).2.2 = 0) :
    (isUnique cfg (runDedup cfg st calls).1 id ts symbol tq).2.1 = false := by
  have hPN := runDedup_preserves_SeenAt cfg calls st symbol id t0 tq hP hwin
    htimes hno
  have hcut : tq - cfg.windowSeconds ≤ t0 := by linarith
  unfold isUnique
  set stN := (runDedup cfg st calls).1 with hstN
  set st1 := if cfg.cleanupInterval < tq - stN.lastCleanup
    then dedupCleanup cfg stN tq else stN with hst1
  have hP1 : SeenAt st1 symbol id t0 := by
    rw [hst1]
    by_cases hcl : cfg.cleanupInterval < tq - stN.lastCleanup
    · rw [if_pos hcl]
      exact cleanup_preserves_SeenAt cfg stN symbol id t0 tq hPN hcut
    · rw [if_neg hcl]
      exact hPN
  unfold SeenAt at hP1
  have hlk : lookupA (getSymbol st1.symbols symbol).seen id = some t0 := by
    unfold lookupA
    rw [hP1]
    rfl
  unfold dedupCheck
  rw [hlk]
  simp only [hwin, if_true, reduceIte]

/-- Witness for C7 amended: entry `("a" ↦ 0)` for symbol `"S"`, one
interleaved call for `"b"` at time 1 (no eviction, cap 2), probe for
`"a"` at time 2 (window 100): the probe returns false. -/
theorem dedup_unique_at_most_once_amended_witness :
    (isUnique c7Cfg
      (runDedup c7Cfg
        ⟨[("S", ⟨[("a", mkRat 0 1)], [("a", mkRat 0 1)]⟩)], mkRat 0 1⟩
        [("b", 2, "S", mkRat 1 1)]).1
      "a" 1 "S" (mkRat 2 1)).2.1 = false := by
  refine dedup_unique_at_most_once_amended c7Cfg
    ⟨[("S", ⟨[("a", mkRat 0 1)], [("a", mkRat 0 1)]⟩)], mkRat 0 1⟩
    "a" "S" (mkRat 0 1) (mkRat 2 1) 1 [("b", 2, "S", mkRat 1 1)]
    (by with_unfolding_all rfl) (by with_unfolding_all decide) ?_
    (by with_unfolding_all decide)
  intro c hc
  rcases List.mem_singleton.mp hc with rfl
  with_unfolding_all decide

/-- C6 counterexample: with `rate = 2` per minute and a full bucket at
time 0, the valid serialized trace entering at times `0, 0, 0, 30`
proceeds at `0, 0, 30, 30` — FOUR acquires proceed inside the 60-second
window `[0, 60)`, exceeding the claimed bound `rate = 2`.  (The initial
burst spends the full bucket, and after the sleeping third call sets
`tokens = 0` while `last_update` stays at the pre-sleep instant, the
sleep interval's refill is credited a second time.) -/
theorem rate_limiter_counterexample :
    ValidFrom 2 (RLState.init 2 0) 0 [0, 0, 0, 30] ∧
    runAcquires 2 (RLState.init 2 0) [0, 0, 0, 30] = [0, 0, 30, 30] ∧
    countWindow 0 (runAcquires 2 (RLState.init 2 0) [0, 0, 0, 30]) = 4 ∧
    ¬ (countWindow 0 (runAcquires 2 (RLState.init 2 0) [0, 0, 0, 30]) ≤ 2) := by
  have h1 : refillTokens 2 (RLState.init 2 0) 0 = 2 := by
    norm_num [refillTokens, RLState.init]
  have s1 : acquireStep 2 (RLState.init 2 0) 0 = (⟨1, 0⟩, 0) := by
    rw [acquireStep, h1]
    norm_num
  have h2 : refillTokens 2 ⟨1, 0⟩ 0 = 1 := by norm_num [refillTokens]
  have s2 : acquireStep 2 ⟨1, 0⟩ 0 = (⟨0, 0⟩, 0) := by
    rw [acquireStep, h2]
    norm_num
  have h3 : refillTokens 2 ⟨0, 0⟩ 0 = 0 := by norm_num [refillTokens]
  have s3 : acquireStep 2 ⟨0, 0⟩ 0 = (⟨0, 0⟩, 30) := by
    rw [acquireStep, h3]
    norm_num
  have h4 : refillTokens 2 ⟨0, 0⟩ 30 = 1 := by norm_num [refillTokens]
  have s4 : acquireStep 2 ⟨0, 0⟩ 30 = (⟨0, 30⟩, 30) := by
    rw [acquireStep, h4]
    norm_num
  have hrun : runAcquires 2 (RLState.init 2 0) [0, 0, 0, 30] = [0, 0, 30, 30] := by
    simp only [runAcquires, s1, s2, s3, s4]
  refine ⟨?_, hrun, ?_, ?_⟩
  · simp only [ValidFrom, s1, s2, s3, s4]
    norm_num
  · rw [hrun]
    norm_num [countWindow, List.filter]
  · rw [hrun]
    norm_num [countWindow, List.filter]

/-- Helper: a call never proceeds before its entry time. -/
theorem acquireStep_now_le_proceed (rate : ℚ) (hr : 1 ≤ rate)
    (s : RLState) (now : ℚ) : now ≤ (acquireStep rate s now).2 := by
  unfold acquireStep
  by_cases hfast : 1 ≤ refillTokens rate s now
  · rw [if_pos hfast]
  · rw [if_neg hfast]
    simp only
    have hρ : 0 < rate / 60 := by positivity
    have ht : refillTokens rate s now < 1 := lt_of_not_le hfast
    have : 0 ≤ (1 - refillTokens rate s now) / (rate / 60) :=
      div_nonneg (by linarith) (le_of_lt hρ)
    linarith

/-- Helper: in a valid trace every proceed time is at or after the
release floor `q`. -/
theorem proceeds_ge_release (rate : ℚ) (hr : 1 ≤ rate) :
    ∀ (nows : List ℚ) (s : RLState) (q : ℚ), ValidFrom rate s q nows →
      ∀ p ∈ runAcquires rate s nows, q ≤ p := by
  intro nows
  induction nows with
  | nil => intro s q _ p hp; simp [runAcquires] at hp
  | cons now rest ih =>
    intro s q hv p hp
    obtain ⟨hq, hv'⟩ := hv
    simp only [runAcquires, List.mem_cons] at hp
    rcases hp with rfl | hp
    · exact hq.trans (acquireStep_now_le_proceed rate hr s now)
    · have := ih (acquireStep rate s now).1 (acquireStep rate s now).2 hv' p hp
      exact le_trans (hq.trans (acquireStep_now_le_proceed rate hr s now)) this

/-- Helper: no proceeds inside the window when all proceeds are at or
beyond its end. -/
theorem countWindow_eq_zero (T : ℚ) (ps : List ℚ)
    (h : ∀ p ∈ ps, T + 60 ≤ p) : countWindow T ps = 0 := by
  unfold countWindow
  rw [List.filter_eq_nil_iff.mpr]
  · rfl
  · intro p hp
    simp only [decide_eq_true_eq, not_and, not_lt]
    intro _
    exact h p hp

/-- Helper: window count of a cons. -/
theorem countWindow_cons (T p : ℚ) (ps : List ℚ) :
    (countWindow T (p :: ps) : ℚ) =
      (if T ≤ p ∧ p < T + 60 then 1 else 0) + countWindow T ps := by
  unfold countWindow
  by_cases hp : T ≤ p ∧ p < T + 60
  · rw [List.filter_cons_of_pos (by simpa using hp), if_pos hp]
    push_cast [List.length_cons]
    ring
  · rw [List.filter_cons_of_neg (by simpa using hp), if_neg hp]
    norm_num

/-- Helper: the refilled token count is nonnegative. -/
theorem refillTokens_nonneg (rate : ℚ) (hr : 1 ≤ rate) (s : RLState)
    (t : ℚ) (hu : 0 ≤ s.tokens) (ht : s.lastUpdate ≤ t) :
    0 ≤ refillTokens rate s t := by
  unfold refillTokens
  refine le_min (by linarith) ?_
  have : 0 ≤ (t - s.lastUpdate) * (rate / 60) := by
    apply mul_nonneg (by linarith) (by positivity)
  linarith

/-- Helper: the refilled token count never exceeds the bucket size. -/
theorem refillTokens_le_rate (rate : ℚ) (s : RLState) (t : ℚ) :
    refillTokens rate s t ≤ rate := min_le_left _ _

/-- Helper: the (capped) refill grows by at most `rate/60` per second. -/
theorem refillTokens_growth (rate : ℚ) (hr : 1 ≤ rate) (s : RLState)
    (t1 t2 : ℚ) (h12 : t1 ≤ t2) :
    refillTokens rate s t2 ≤ refillTokens rate s t1 + (t2 - t1) * (rate / 60) := by
  unfold refillTokens
  have hd : 0 ≤ (t2 - t1) * (rate / 60) := by
    apply mul_nonneg (by linarith) (by positivity)
  have hx : s.tokens + (t2 - s.lastUpdate) * (rate / 60) =
      (s.tokens + (t1 - s.lastUpdate) * (rate / 60)) + (t2 - t1) * (rate / 60) := by
    ring
  rcases le_total (s.tokens + (t1 - s.lastUpdate) * (rate / 60)) rate with hc | hc
  · rw [min_eq_right hc]
    calc min rate (s.tokens + (t2 - s.lastUpdate) * (rate / 60)) ≤
        s.tokens + (t2 - s.lastUpdate) * (rate / 60) := min_le_right _ _
      _ = _ := by ring
  · rw [min_eq_left hc]
    calc min rate (s.tokens + (t2 - s.lastUpdate) * (rate / 60)) ≤ rate :=
        min_le_left _ _
      _ ≤ rate + (t2 - t1) * (rate / 60) := by linarith

/-- Helper: the refill formula, as an equation. -/
theorem refillTokens_def (rate : ℚ) (s : RLState) (t : ℚ) :
    refillTokens rate s t =
      min rate (s.tokens + (t - s.lastUpdate) * (rate / 60)) := rfl

/-- Helper: the window-budget expression is nonnegative while the release
floor is inside the window. -/
theorem rl_rhs_nonneg (rate : ℚ) (hr : 1 ≤ rate) (T : ℚ) (s : RLState)
    (q : ℚ) (b : Bool) (hu0 : 0 ≤ s.tokens) (hLq : s.lastUpdate ≤ q)
    (hqW : q < T + 60) :
    (0 : ℚ) ≤ refillTokens rate s (max q T) +
      2 * (rate / 60) * (T + 60 - max q T) + (if b then 1 else 2) := by
  have hm1 : s.lastUpdate ≤ max q T := le_trans hLq (le_max_left _ _)
  have h1 : 0 ≤ refillTokens rate s (max q T) :=
    refillTokens_nonneg rate hr s _ hu0 hm1
  have hmW : max q T ≤ T + 60 := max_le (le_of_lt hqW) (by linarith)
  have h2 : 0 ≤ 2 * (rate / 60) * (T + 60 - max q T) :=
    mul_nonneg (by positivity) (by linarith)
  have h3 : (1 : ℚ) ≤ (if b then 1 else 2) := by cases b <;> norm_num
  linarith

/-- Helper: the inductive budget bound.  For a valid serialized suffix
with release floor `q` still inside the window `[T, T+60)`, the number of
in-window proceeds is bounded by the capped refill potential at
`max q T`, plus refill credited at twice the nominal rate for the rest of
the window (the post-sleep double-credit), plus a constant (2 before the
first in-window proceed, 1 after: the extra 1 pays for a sleep that
started before the window and finished inside it). -/
theorem rl_window_bound_aux (rate : ℚ) (hr : 1 ≤ rate) (T : ℚ) :
    ∀ (nows : List ℚ) (s : RLState) (q : ℚ) (b : Bool),
      0 ≤ s.tokens → s.tokens ≤ rate → s.lastUpdate ≤ q →
      (b = true → T ≤ q) → q < T + 60 →
      ValidFrom rate s q nows →
      (countWindow T (runAcquires rate s nows) : ℚ) ≤
        refillTokens rate s (max q T) +
          2 * (rate / 60) * (T + 60 - max q T) + (if b then 1 else 2) := by
  intro nows
  induction nows with
  | nil =>
    intro s q b hu0 _ hLq _ hqW _
    simp only [runAcquires, countWindow, List.filter_nil, List.length_nil,
      Nat.cast_zero]
    exact rl_rhs_nonneg rate hr T s q b hu0 hLq hqW
  | cons now rest ih =>
    intro s q b hu0 hur hLq hbq hqW hv
    obtain ⟨hqnow, hv'⟩ := hv
    have hLnow : s.lastUpdate ≤ now := le_trans hLq hqnow
    have hρ : (0 : ℚ) < rate / 60 := by positivity
    have h0t : 0 ≤ refillTokens rate s now :=
      refillTokens_nonneg rate hr s now hu0 hLnow
    have htr : refillTokens rate s now ≤ rate := refillTokens_le_rate rate s now
    have hκ : (1 : ℚ) ≤ (if b then 1 else 2) := by cases b <;> norm_num
    by_cases hfast : 1 ≤ refillTokens rate s now
    · -- token available: proceed at `now`
      have hstep : acquireStep rate s now =
          ({ tokens := refillTokens rate s now - 1, lastUpdate := now }, now) := by
        unfold acquireStep
        rw [if_pos hfast]
      rw [hstep] at hv'
      have hv2 : ValidFrom rate
          ({ tokens := refillTokens rate s now - 1, lastUpdate := now } : RLState)
          now rest := hv'
      simp only [runAcquires, hstep]
      rw [countWindow_cons]
      by_cases hnW : T + 60 ≤ now
      · -- proceeds from here on are all past the window
        have htail : countWindow T (runAcquires rate
            ({ tokens := refillTokens rate s now - 1, lastUpdate := now } : RLState)
            rest) = 0 := by
          refine countWindow_eq_zero T _ (fun p hp => le_trans hnW ?_)
          exact proceeds_ge_release rate hr rest _ now hv2 p hp
        rw [if_neg (by rintro ⟨_, hlt⟩; linarith), htail]
        simpa using rl_rhs_nonneg rate hr T s q b hu0 hLq hqW
      · have hnW' : now < T + 60 := lt_of_not_le hnW
        by_cases hnT : now < T
        · -- pre-window fast proceed
          have hmq : max q T = T := max_eq_right (le_of_lt (lt_of_le_of_lt hqnow hnT))
          have hih := ih { tokens := refillTokens rate s now - 1, lastUpdate := now }
            now b (by show (0:ℚ) ≤ refillTokens rate s now - 1; linarith)
            (by show refillTokens rate s now - 1 ≤ rate; linarith) (le_refl now)
            (fun hb => absurd (hbq hb)
              (not_le.mpr (lt_of_le_of_lt hqnow hnT)))
            (by linarith) hv2
          have hmn : max now T = T := max_eq_right (le_of_lt hnT)
          rw [hmn] at hih
          have hmono : refillTokens rate
              ({ tokens := refillTokens rate s now - 1, lastUpdate := now } : RLState) T ≤
              refillTokens rate s T := by
            rw [refillTokens_def rate _ T, refillTokens_def rate s T]
            simp only
            refine min_le_min (le_refl rate) ?_
            have h1 : refillTokens rate s now ≤
                s.tokens + (now - s.lastUpdate) * (rate / 60) := min_le_right _ _
            have h2 : (now - s.lastUpdate) * (rate / 60) +
                (T - now) * (rate / 60) = (T - s.lastUpdate) * (rate / 60) := by ring
            linarith
          rw [if_neg (by rintro ⟨hge, _⟩; exact absurd hge (not_le.mpr hnT)), hmq]
          linarith
        · -- in-window fast proceed
          have hnT' : T ≤ now := le_of_not_lt hnT
          have hih := ih { tokens := refillTokens rate s now - 1, lastUpdate := now }
            now true (by show (0:ℚ) ≤ refillTokens rate s now - 1; linarith)
            (by show refillTokens rate s now - 1 ≤ rate; linarith) (le_refl now)
            (fun _ => hnT') (by linarith) hv2
          have hmn : max now T = now := max_eq_left hnT'
          rw [hmn, if_pos rfl] at hih
          have hs'now : refillTokens rate
              ({ tokens := refillTokens rate s now - 1, lastUpdate := now } : RLState)
              now = refillTokens rate s now - 1 := by
            rw [refillTokens_def]
            simp only
            rw [sub_self, zero_mul, add_zero]
            exact min_eq_right (by linarith)
          rw [hs'now] at hih
          have hmle : max q T ≤ now := max_le hqnow hnT'
          have hgrow := refillTokens_growth rate hr s (max q T) now hmle
          have hprod : 0 ≤ (now - max q T) * (rate / 60) :=
            mul_nonneg (by linarith) (le_of_lt hρ)
          have hexp : 2 * (rate / 60) * (T + 60 - max q T) =
              2 * (rate / 60) * (T + 60 - now) +
                2 * ((now - max q T) * (rate / 60)) := by ring
          rw [if_pos ⟨hnT', hnW'⟩]
          linarith
    · -- no token: sleep, then proceed
      have hslow : refillTokens rate s now < 1 := lt_of_not_le hfast
      have hstep : acquireStep rate s now =
          ({ tokens := 0, lastUpdate := now },
            now + (1 - refillTokens rate s now) / (rate / 60)) := by
        unfold acquireStep
        rw [if_neg hfast]
      rw [hstep] at hv'
      have hv2 : ValidFrom rate ({ tokens := 0, lastUpdate := now } : RLState)
          (now + (1 - refillTokens rate s now) / (rate / 60)) rest := hv'
      simp only [runAcquires, hstep]
      rw [countWindow_cons]
      have hpnow : now < now + (1 - refillTokens rate s now) / (rate / 60) := by
        have : 0 < (1 - refillTokens rate s now) / (rate / 60) :=
          div_pos (by linarith) hρ
        linarith
      have hprod1 : (now + (1 - refillTokens rate s now) / (rate / 60) - now) *
          (rate / 60) = 1 - refillTokens rate s now := by
        have h := div_mul_cancel₀ (1 - refillTokens rate s now) (ne_of_gt hρ)
        calc (now + (1 - refillTokens rate s now) / (rate / 60) - now) *
            (rate / 60) =
            (1 - refillTokens rate s now) / (rate / 60) * (rate / 60) := by ring
          _ = 1 - refillTokens rate s now := h
      by_cases hpW : T + 60 ≤ now + (1 - refillTokens rate s now) / (rate / 60)
      · -- the sleep carries past the window end
        have htail : countWindow T (runAcquires rate
            ({ tokens := 0, lastUpdate := now } : RLState) rest) = 0 := by
          refine countWindow_eq_zero T _ (fun p hp => le_trans hpW ?_)
          exact proceeds_ge_release rate hr rest _ _ hv2 p hp
        rw [if_neg (by rintro ⟨_, hlt⟩; linarith), htail]
        simpa using rl_rhs_nonneg rate hr T s q b hu0 hLq hqW
      · have hpW' : now + (1 - refillTokens rate s now) / (rate / 60) < T + 60 :=
          lt_of_not_le hpW
        by_cases hpT : now + (1 - refillTokens rate s now) / (rate / 60) < T
        · -- the sleep finishes before the window starts
          have hmq : max q T = T := by
            refine max_eq_right (le_of_lt ?_)
            calc q ≤ now := hqnow
              _ < now + (1 - refillTokens rate s now) / (rate / 60) := hpnow
              _ < T := hpT
          have hih := ih { tokens := 0, lastUpdate := now }
            (now + (1 - refillTokens rate s now) / (rate / 60)) b
            (le_refl 0) (by show (0:ℚ) ≤ rate; linarith) (le_of_lt hpnow)
            (fun hb => absurd (hbq hb)
              (not_le.mpr (lt_of_le_of_lt hqnow (lt_trans hpnow hpT))))
            (by linarith) hv2
          have hmn : max (now + (1 - refillTokens rate s now) / (rate / 60)) T
              = T := max_eq_right (le_of_lt hpT)
          rw [hmn] at hih
          have hmono : refillTokens rate
              ({ tokens := 0, lastUpdate := now } : RLState) T ≤
              refillTokens rate s T := by
            rw [refillTokens_def rate _ T, refillTokens_def rate s T]
            simp only
            refine min_le_min (le_refl rate) ?_
            have h1 : refillTokens rate s now ≤
                s.tokens + (now - s.lastUpdate) * (rate / 60) := min_le_right _ _
            have h2 : (now - s.lastUpdate) * (rate / 60) +
                (T - now) * (rate / 60) = (T - s.lastUpdate) * (rate / 60) := by ring
            linarith
          have hind : ¬ (T ≤ now + (1 - refillTokens rate s now) / (rate / 60) ∧
              now + (1 - refillTokens rate s now) / (rate / 60) < T + 60) := by
            rintro ⟨hge, _⟩
            exact absurd hge (not_le.mpr hpT)
          rw [if_neg hind, hmq]
          linarith
        · -- the sleep finishes inside the window: an in-window proceed
          have hpT' : T ≤ now + (1 - refillTokens rate s now) / (rate / 60) :=
            le_of_not_lt hpT
          have hih := ih { tokens := 0, lastUpdate := now }
            (now + (1 - refillTokens rate s now) / (rate / 60)) true
            (le_refl 0) (by show (0:ℚ) ≤ rate; linarith) (le_of_lt hpnow)
            (fun _ => hpT') (by linarith) hv2
          have hmn : max (now + (1 - refillTokens rate s now) / (rate / 60)) T =
              now + (1 - refillTokens rate s now) / (rate / 60) :=
            max_eq_left hpT'
          rw [hmn, if_pos rfl] at hih
          have hs'p : refillTokens rate
              ({ tokens := 0, lastUpdate := now } : RLState)
              (now + (1 - refillTokens rate s now) / (rate / 60)) =
              1 - refillTokens rate s now := by
            rw [refillTokens_def]
            simp only
            rw [zero_add, hprod1]
            exact min_eq_right (by linarith)
          rw [hs'p] at hih
          rw [if_pos ⟨hpT', hpW'⟩]
          by_cases hnowT : now < T
          · -- the sleep started before the window (overhang)
            have hbf : b = false := by
              cases b with
              | false => rfl
              | true =>
                exact absurd (le_trans (hbq rfl) hqnow) (not_le.mpr hnowT)
            have hmq : max q T = T :=
              max_eq_right (le_of_lt (lt_of_le_of_lt hqnow hnowT))
            have hTp : (T - now) * (rate / 60) ≤
                1 - refillTokens rate s now := by
              have h3 : (T - now) * (rate / 60) ≤
                  (now + (1 - refillTokens rate s now) / (rate / 60) - now) *
                    (rate / 60) := by
                apply mul_le_mul_of_nonneg_right _ (le_of_lt hρ)
                linarith
              rw [hprod1] at h3
              exact h3
            have hlow : refillTokens rate s now +
                (T - now) * (rate / 60) ≤ refillTokens rate s T := by
              rw [refillTokens_def rate s T]
              refine le_min (by linarith) ?_
              have h1 : refillTokens rate s now ≤
                  s.tokens + (now - s.lastUpdate) * (rate / 60) :=
                min_le_right _ _
              have h2 : (now - s.lastUpdate) * (rate / 60) +
                  (T - now) * (rate / 60) =
                  (T - s.lastUpdate) * (rate / 60) := by ring
              linarith
            have hid : (now + (1 - refillTokens rate s now) / (rate / 60) - T) *
                (rate / 60) + (T - now) * (rate / 60) =
                1 - refillTokens rate s now := by
              have hsplit : (now + (1 - refillTokens rate s now) / (rate / 60) - T) *
                  (rate / 60) + (T - now) * (rate / 60) =
                  (now + (1 - refillTokens rate s now) / (rate / 60) - now) *
                    (rate / 60) := by ring
              rw [hsplit, hprod1]
            have hpTρ : 0 ≤ (now + (1 - refillTokens rate s now) / (rate / 60) - T) *
                (rate / 60) := mul_nonneg (by linarith) (le_of_lt hρ)
            have hexp : 2 * (rate / 60) * (T + 60 - T) =
                2 * (rate / 60) *
                  (T + 60 - (now + (1 - refillTokens rate s now) / (rate / 60))) +
                2 * ((now + (1 - refillTokens rate s now) / (rate / 60) - T) *
                  (rate / 60)) := by ring
            rw [hmq, hbf]
            simp only [Bool.false_eq_true, if_false, reduceIte]
            linarith
          · -- the sleep started inside the window
            have hnT' : T ≤ now := le_of_not_lt hnowT
            have hmle : max q T ≤ now := max_le hqnow hnT'
            have hgrow := refillTokens_growth rate hr s (max q T) now hmle
            have hprodm : 0 ≤ (now - max q T) * (rate / 60) :=
              mul_nonneg (by linarith) (le_of_lt hρ)
            have hexp : 2 * (rate / 60) * (T + 60 - max q T) =
                2 * (rate / 60) *
                  (T + 60 - (now + (1 - refillTokens rate s now) / (rate / 60))) +
                2 * ((now + (1 - refillTokens rate s now) / (rate / 60) - now) *
                  (rate / 60)) +
                2 * ((now - max q T) * (rate / 60)) := by ring
            rw [hprod1] at hexp
            linarith

/-- C6 amended: over any 60-second wall-clock window `[T, T+60)`, at most
`3·rate + 2` acquire() calls proceed, for every valid serialized sequence
of acquire() calls against a limiter constructed (with a full bucket of
`rate` tokens) at time `t0`.  The claimed bound `rate` is false (see the
counterexample); the factor reflects the initial burst of up to `rate`
tokens plus refill that the post-sleep bookkeeping can credit at up to
twice the nominal rate (`last_update` is not advanced past the sleep, so
the sleep interval's refill is granted twice). -/
theorem rate_limiter_window_bound (rate t0 T : ℚ) (hr : 1 ≤ rate)
    (nows : List ℚ)
    (hv : ValidFrom rate (RLState.init rate t0) t0 nows) :
    (countWindow T (runAcquires rate (RLState.init rate t0) nows) : ℚ) ≤
      3 * rate + 2 := by
  by_cases hqW : t0 < T + 60
  · have h := rl_window_bound_aux rate hr T nows (RLState.init rate t0) t0 false
      (by show (0 : ℚ) ≤ rate; linarith) (le_refl rate) (le_refl t0)
      (fun hff => (Bool.false_ne_true hff).elim) hqW hv
    simp only [Bool.false_eq_true, if_false, reduceIte] at h
    have h1 : refillTokens rate (RLState.init rate t0) (max t0 T) ≤ rate :=
      refillTokens_le_rate rate _ _
    have hm : T ≤ max t0 T := le_max_right _ _
    have h2 : 2 * (rate / 60) * (T + 60 - max t0 T) ≤ 2 * (rate / 60) * 60 := by
      apply mul_le_mul_of_nonneg_left _ (by positivity)
      linarith
    have h3 : 2 * (rate / 60) * 60 = 2 * rate := by ring
    linarith
  · have h0 : countWindow T (runAcquires rate (RLState.init rate t0) nows) = 0 := by
      refine countWindow_eq_zero T _ (fun p hp => le_trans (le_of_not_lt hqW) ?_)
      exact proceeds_ge_release rate hr nows _ t0 hv p hp
    rw [h0]
    push_cast
    linarith

/-- Witness for C6 amended at the counterexample trace: with `rate = 2`
the four proceeds inside `[0, 60)` respect the proved bound
`3·2 + 2 = 8`. -/
theorem rate_limiter_window_bound_witness :
    (countWindow 0 (runAcquires 2 (RLState.init 2 0) [0, 0, 0, 30]) : ℚ) ≤
      3 * 2 + 2 := by
  refine rate_limiter_window_bound 2 0 0 (by norm_num) [0, 0, 0, 30] ?_
  have s1 : acquireStep 2 (RLState.init 2 0) 0 = (⟨1, 0⟩, 0) := by
    rw [acquireStep]
    norm_num [refillTokens, RLState.init]
  have s2 : acquireStep 2 ⟨1, 0⟩ 0 = (⟨0, 0⟩, 0) := by
    rw [acquireStep]
    norm_num [refillTokens]
  have s3 : acquireStep 2 ⟨0, 0⟩ 0 = (⟨0, 0⟩, 30) := by
    rw [acquireStep]
    norm_num [refillTokens]
  have s4 : acquireStep 2 ⟨0, 0⟩ 30 = (⟨0, 30⟩, 30) := by
    rw [acquireStep]
    norm_num [refillTokens]
  simp only [ValidFrom, s1, s2, s3, s4]
  norm_num

end BitcoinPipeline
